import Mathlib

/-!
Shallow embedding of the window-management and compositing core of the
catacomb Wayland compositor (src/window.rs, src/drawing.rs), together with
proofs about its transaction protocol, overview gesture state machine and
damage tracking.

Modelling conventions:
* Rust `f64` values are embedded as `ℚ`; all concrete values appearing in
  the code (percentages, thresholds, sensitivities) are dyadic and hence
  exactly representable both in `f64` and in `ℚ`.
* `Instant` timestamps are rationals measured in milliseconds; each call
  to `Instant::now()` becomes an explicit `now` parameter.
* Machine-integer arithmetic that can overflow (the `usize` subtraction in
  `Overview::focused_index`) and slice indexing that can go out of bounds
  are modelled with `Option`, `none` standing for a Rust panic.
* `Rc`/`Weak` window references are modelled by a stable numeric identity
  `id`; `Weak::new()` is `none`, `Weak::ptr_eq` is equality of the
  optional ids, `Weak::upgrade` is a lookup in the registry's window list
  and `Weak::strong_count` counts occurrences of the id in that list.
-/

/-- Rounding half away from zero, the semantics of Rust's `f64::round`. -/
def roundAway (q : ℚ) : Int := if 0 ≤ q then ⌊q + 1/2⌋ else -⌊-q + 1/2⌋

/-- Truncation toward zero, the semantics of Rust's `as i32` / `as usize`
casts for in-range values (the values arising here are tiny). -/
def truncQ (q : ℚ) : Int := if 0 ≤ q then ⌊q⌋ else -⌊-q⌋

/-- Two-dimensional size with `i32` components (`Size<i32, _>`). -/
structure ISize where
  w : Int
  h : Int
deriving DecidableEq

/-- Two-dimensional point with `i32` components (`Point<i32, _>`). -/
structure IPoint where
  x : Int
  y : Int
deriving DecidableEq

/-- Rectangle with `i32` components (`Rectangle<i32, Logical>`), location
`(x, y)` and size `(w, h)`. -/
structure IRect where
  x : Int
  y : Int
  w : Int
  h : Int
deriving DecidableEq

/-- Size of a rectangle. -/
def IRect.size (r : IRect) : ISize := ⟨r.w, r.h⟩

/-- Smithay's `Rectangle::contains`: location-inclusive, far-edge exclusive. -/
def IRect.contains (r : IRect) (p : IPoint) : Bool :=
  decide (r.x ≤ p.x) && decide (p.x < r.x + r.w) &&
  decide (r.y ≤ p.y) && decide (p.y < r.y + r.h)

/-- Point with `f64` components (`Point<f64, Logical>`). -/
structure QPoint where
  x : ℚ
  y : ℚ
deriving DecidableEq

/-- Smithay's `Point::<f64>::to_i32_round`. -/
def QPoint.to_i32_round (p : QPoint) : IPoint := ⟨roundAway p.x, roundAway p.y⟩

/-- Rectangle with `f64` components (`Rectangle<f64, Physical>`). -/
structure QRect where
  x : ℚ
  y : ℚ
  w : ℚ
  h : ℚ
deriving DecidableEq

instance : Inhabited QRect := ⟨⟨0, 0, 0, 0⟩⟩

/-- Modelled from the spec: the `Vector::scale` helper of the repository's
geometry module (not under src/) scales each component of an `i32` size by
an `f64` factor and converts back with an `as i32` cast (truncation). -/
def ISize.scale (s : ISize) (f : ℚ) : ISize := ⟨truncQ ((s.w : ℚ) * f), truncQ ((s.h : ℚ) * f)⟩

/-- Componentwise maximum (`Size::max` against a lower bound). -/
def ISize.max2 (s : ISize) (t : ISize) : ISize := ⟨max s.w t.w, max s.h t.h⟩

/-! ## src/drawing.rs -/

/-- Maximum buffer age before damage information is discarded. -/
def MAX_DAMAGE_AGE : Nat := 2

/-- Surface damage history (`Damage` in src/drawing.rs): `physical` is the
fixed-size ring `[Rectangle<f64, Physical>; MAX_DAMAGE_AGE]` with slot 0
the newest entry, `buffer` the buffer-space damage since the last import. -/
structure Damage where
  physical : QRect × QRect
  buffer : List IRect
deriving DecidableEq

/-- `Damage::clear`: `self.physical.rotate_right(1); self.physical[0] =
Rectangle::default(); self.buffer.clear();` — on a two-slot ring,
rotating right turns `(a, b)` into `(b, a)` and resetting slot 0 then
yields `(default, a)`: the old newest entry ages one slot, the old oldest
entry is discarded. -/
def Damage.clear (d : Damage) : Damage :=
  ⟨(default, d.physical.1), []⟩

/-- Cached texture (`Texture` in src/drawing.rs). The GL texture handle and
the buffer transform are omitted: they are opaque data passed through to
the external renderer and never inspected by the core. `damage` is the
snapshot of the physical damage ring (newest first, `MAX_DAMAGE_AGE`
entries as built by the constructors). -/
structure Texture where
  damage : List QRect
  location : IPoint
  size : ISize
  scale : Int
deriving DecidableEq

/-- Rust slice indexing `&l[..n]`: panics (`none`) when `n` exceeds the
slice length. -/
def slicePrefix (l : List α) (n : Nat) : Option (List α) :=
  if n ≤ l.length then some (l.take n) else none

/-- Outcome of `Texture::draw_at`, as observable by the caller and the
renderer: skipped because the texture lies outside the window bounds,
skipped because the selected damage is empty, panicked (out-of-bounds
slice), or rendered with the given physical damage rectangles. -/
inductive DrawResult where
  | skippedLocation : DrawResult
  | skippedNoDamage : DrawResult
  | panicked : DrawResult
  | rendered : List QRect → DrawResult
deriving DecidableEq

/-- `Texture::draw_at` (src/drawing.rs lines 133-176). The source-rectangle
buffer conversion (`src.to_buffer`) is omitted: it is computed only to be
handed to the external renderer and does not influence the damage
selection or any skip decision. -/
def Texture.draw_at (t : Texture) (outputScale : ℚ) (window_bounds : IRect)
    (window_scale : ℚ) (buffer_age : Nat) : DrawResult :=
  -- Skip textures completely outside of the window bounds.
  let scaled_window_bounds := (window_bounds.size.scale (1 / window_scale)).max2 ⟨1, 1⟩
  if t.location.x ≥ scaled_window_bounds.w ∨ t.location.y ≥ scaled_window_bounds.h then
    .skippedLocation
  else
    -- Truncate source size based on window bounds.
    let src_size : ISize := ⟨min (t.size.w + t.location.x) scaled_window_bounds.w,
                             min (t.size.h + t.location.y) scaled_window_bounds.h⟩
    -- Scale output size based on window scale.
    let location : IPoint := ⟨window_bounds.x + truncQ ((t.location.x : ℚ) * window_scale),
                              window_bounds.y + truncQ ((t.location.y : ℚ) * window_scale)⟩
    let dst_size : ISize := ⟨min ((src_size.scale window_scale).w) window_bounds.w,
                             min ((src_size.scale window_scale).h) window_bounds.h⟩
    let dst_physical : QRect := ⟨(location.x : ℚ) * outputScale, (location.y : ℚ) * outputScale,
                                 (dst_size.w : ℚ) * outputScale, (dst_size.h : ℚ) * outputScale⟩
    -- Calculate buffer damage: `(buffer_age != 0).then(|| &self.damage[..buffer_age])
    --                                             .unwrap_or(&full_damage)`.
    let full_damage : List QRect := [⟨0, 0, dst_physical.w, dst_physical.h⟩]
    match (if buffer_age ≠ 0 then slicePrefix t.damage buffer_age else some full_damage) with
    | none => .panicked
    | some damage =>
      -- Skip rendering surfaces without damage.
      if damage.all (· = default) then .skippedNoDamage else .rendered damage

/-! ## Overview layout formula (src/window.rs `overview_x_position`) -/

/-- Model of Rust's `f64::powf` restricted to the rational embedding: exact
for integer exponents (the only exponents exercised by the claims); a
fractional exponent would produce an irrational number, which the rational
embedding cannot represent, so that case is mapped to `0`. -/
def powfQ (b e : ℚ) : ℚ :=
  if e = (⌊e⌋ : ℚ) then
    if 0 ≤ e then b ^ (⌊e⌋).toNat else (b ^ (-⌊e⌋).toNat)⁻¹
  else 0

/-- Calculate the X coordinate of a window in the application overview based
on its position (src/window.rs lines 961-978). `match position.partial_cmp(&0.)`
has arms `Less`, `Greater` and a default arm covering `Equal` (and the NaN
case, which cannot arise in the rational embedding). -/
def overview_x_position (fg_percentage bg_percentage : ℚ)
    (output_width window_width : Int) (position : ℚ) : Int :=
  let bg_space_size : ℚ := (output_width : ℚ) * (1 - fg_percentage) * (1/2)
  let next_space_size : ℚ := bg_space_size * powfQ (1 - bg_percentage) |position|
  let next_space_size_i : Int := roundAway next_space_size
  if position < 0 then next_space_size_i
  else if 0 < position then output_width - window_width - next_space_size_i
  else roundAway bg_space_size

/-! ## src/window.rs: data model -/

/-- Maximum time before a transaction is cancelled (200 ms). -/
def MAX_TRANSACTION_DURATION : ℚ := 200

/-- Horizontal sensitivity of the application overview. -/
def OVERVIEW_HORIZONTAL_SENSITIVITY : ℚ := 250

/-- Percentage of output width reserved for the main window in the overview. -/
def FG_OVERVIEW_PERCENTAGE : ℚ := 3/4

/-- Percentage of remaining space reserved for background windows. -/
def BG_OVERVIEW_PERCENTAGE : ℚ := 1/2

/-- Percentage of the output height a window can be moved before closing it. -/
def OVERVIEW_CLOSE_DISTANCE : ℚ := 1/2

/-- Animation speed for the return from close, lower means faster. -/
def CLOSE_CANCEL_ANIMATION_SPEED : ℚ := 3/10

/-- Animation speed for the return from overdrag, lower means faster. -/
def OVERDRAG_ANIMATION_SPEED : ℚ := 25

/-- Maximum amount of overdrag before inputs are ignored. -/
def OVERDRAG_LIMIT : ℚ := 3

/-- Directional plane of a latched drag. -/
inductive Direction where
  | horizontal : Direction
  | vertical : Direction
deriving DecidableEq

/-- Overview view state (`Overview` in src/window.rs). -/
structure Overview where
  x_offset : ℚ
  y_offset : ℚ
  floating_position : Option QPoint
  last_drag_point : QPoint
  last_overdrag_step : Option ℚ
  drag_direction : Option Direction
  close_release_pending : Bool
  hold_start : Option ℚ
deriving DecidableEq

/-- `Overview::default()`. -/
instance : Inhabited Overview := ⟨⟨0, 0, none, ⟨0, 0⟩, none, none, false, none⟩⟩

/-- Compositor window arrangements (`View`). -/
inductive View where
  | overview : Overview → View
  | workspace : View
deriving DecidableEq

/-- Atomic changes to a `Window` (`WindowTransaction`). -/
structure WindowTransaction where
  rectangle : IRect
deriving DecidableEq

/-- Wayland client window state (`Window`). `id` is the `Rc` allocation
identity, `alive` the result of `surface.alive()`. The texture cache is
omitted: no claim depends on it and it only feeds rendering. -/
structure Window where
  id : Nat
  alive : Bool
  initial_configure_sent : Bool
  acked_size : ISize
  rectangle : IRect
  visible : Bool
  transaction : Option WindowTransaction
deriving DecidableEq

/-- Atomic changes to `Windows` (`Transaction`): snapshot of the staged
primary/secondary weak references, optional staged view, start timestamp. -/
structure Transaction where
  primary : Option Nat
  secondary : Option Nat
  view : Option View
  start : ℚ
deriving DecidableEq

/-- Container tracking all known clients (`Windows`). `closeRequests` is a
ghost log of the window ids that were sent `surface.send_close()`. -/
structure Windows where
  windows : List Window
  primary : Option Nat
  secondary : Option Nat
  transaction : Option Transaction
  view : View
  closeRequests : List Nat
deriving DecidableEq

/-- The output abstraction consumed by the core (src/output.rs is outside
the verified sources). Modelled from the spec: it exposes a logical size
and primary/secondary window rectangles, the primary one depending on
whether a secondary window is visible. -/
structure Output where
  size : ISize
  primary_rectangle : Bool → IRect
  secondary_rectangle : IRect

/-! ## src/window.rs: window-level operations -/

/-- `WindowTransaction::new`. -/
def WindowTransaction.new (w : Window) : WindowTransaction := ⟨w.rectangle⟩

/-- `Window::start_transaction`: create the per-window transaction from the
current state, or access the active one. -/
def Window.startTx (w : Window) : WindowTransaction :=
  w.transaction.getD (WindowTransaction.new w)

/-- `Window::update_dimensions`: stage a rectangle into the per-window
transaction. The `reconfigure` call it may trigger is a pure protocol send
(a configure event) with no model-visible state. -/
def Window.update_dimensions (w : Window) (rectangle : IRect) : Window :=
  { w with transaction := some ⟨rectangle⟩ }

/-- `Window::enter`: mark visible (the output-enter notification is a
protocol send). -/
def Window.enter (w : Window) : Window := { w with visible := true }

/-- `Window::leave`: mark invisible and stage a resize to the full output
size into the per-window transaction. -/
def Window.leave (w : Window) (output : Output) : Window :=
  let rectangle := { w.startTx.rectangle with w := output.size.w, h := output.size.h }
  Window.update_dimensions { w with visible := false } rectangle

/-- `Window::apply_transaction`: apply the staged rectangle, if any. -/
def Window.apply_transaction (w : Window) : Window :=
  match w.transaction with
  | none => w
  | some t => { w with rectangle := t.rectangle, transaction := none }

/-! ## src/window.rs: registry helpers -/

/-- `Weak::strong_count` of a window reference: the number of `Rc` owners,
i.e. occurrences of the id in the registry's window list (`0` for
`Weak::new()` or after the window was removed from the list). -/
def Windows.strongCount (s : Windows) (p : Option Nat) : Nat :=
  match p with
  | none => 0
  | some i => s.windows.countP (fun w => w.id == i)

/-- `Weak::upgrade` of a window reference: the referenced window, when its
`Rc` is still owned by the registry's window list. -/
def Windows.upgrade (s : Windows) (p : Option Nat) : Option Window :=
  p.bind (fun i => s.windows.find? (fun w => w.id == i))

/-- Apply an in-place mutation to the window with the given id. -/
def Windows.modifyWindow (s : Windows) (i : Nat) (f : Window → Window) : Windows :=
  { s with windows := s.windows.map (fun w => if w.id == i then f w else w) }

/-- `Transaction::new`: snapshot the live primary/secondary references. -/
def Transaction.new (s : Windows) (now : ℚ) : Transaction :=
  ⟨s.primary, s.secondary, none, now⟩

/-- `Windows::start_transaction`: create a new transaction, or access the
active one. Returns the updated registry together with the transaction. -/
def Windows.start_transaction (s : Windows) (now : ℚ) : Windows × Transaction :=
  match s.transaction with
  | some t => (s, t)
  | none =>
    let t := Transaction.new s now
    ({ s with transaction := some t }, t)

/-- `Transaction::update_dimensions`: push the output-derived rectangles
into the primary and secondary windows' per-window transactions. -/
def Transaction.update_dimensions (t : Transaction) (s : Windows) (output : Output) : Windows :=
  let s1 :=
    match s.upgrade t.primary with
    | some pw =>
      let secondary_visible := decide (0 < s.strongCount t.secondary)
      s.modifyWindow pw.id
        (fun w => w.update_dimensions (output.primary_rectangle secondary_visible))
    | none => s
  match s1.upgrade t.secondary with
  | some sw => s1.modifyWindow sw.id (fun w => w.update_dimensions output.secondary_rectangle)
  | none => s1

/-! ## src/window.rs: Overview methods -/

/-- `Overview::focused_index` (src/window.rs lines 461-464):
`(self.x_offset.min(0.).abs().round() as usize).min(window_count - 1)`.
For `window_count = 0` the `usize` subtraction underflows, which is a
panic (`none`). -/
def Overview.focused_index (o : Overview) (window_count : Nat) : Option Nat :=
  if window_count = 0 then none
  else some (min (roundAway |min o.x_offset 0|).toNat (window_count - 1))

/-- `Overview::focused_bounds` (src/window.rs lines 466-482). -/
def Overview.focused_bounds (o : Overview) (output_size : ISize) (window_count : Nat) :
    Option IRect :=
  (o.focused_index window_count).map fun idx =>
    let window_size := output_size.scale FG_OVERVIEW_PERCENTAGE
    let x := overview_x_position FG_OVERVIEW_PERCENTAGE BG_OVERVIEW_PERCENTAGE
      output_size.w window_size.w ((idx : ℚ) + o.x_offset)
    let y := Int.tdiv (output_size.h - window_size.h) 2
    ⟨x, y, window_size.w, window_size.h⟩

/-- `Overview::clamp_offset` (src/window.rs lines 484-515): clamp the X
offset into the overdrag interval, then (when an animation is running)
decay overdrag and close offsets toward their resting values.
`f64::clamp(lo, hi)` is `min (max x lo) hi`; `copysign` applies the
magnitude of its receiver with the sign of its argument. -/
def Overview.clamp_offset (o : Overview) (window_count : Int) (now : ℚ) : Overview :=
  let min_offset : ℚ := -(window_count : ℚ) + 1
  let x0 := min (max o.x_offset (min_offset - OVERDRAG_LIMIT)) OVERDRAG_LIMIT
  match o.last_overdrag_step with
  | none => { o with x_offset := x0 }
  | some step =>
    let delta := now - step
    let overdrag_delta := delta / OVERDRAG_ANIMATION_SPEED
    let close_delta := delta / CLOSE_CANCEL_ANIMATION_SPEED
    let x1 :=
      if 0 < x0 then x0 - min overdrag_delta x0
      else if x0 < min_offset then min (x0 + overdrag_delta) min_offset
      else x0
    let m := abs (min close_delta (abs o.y_offset))
    let y1 := if 0 ≤ o.y_offset then o.y_offset - m else o.y_offset + m
    { o with x_offset := x1, y_offset := y1, last_overdrag_step := some now }

/-! ## src/window.rs: registry state machine -/

/-- `Vec::swap` on a list, by indices; identity when an index is out of
bounds (the indices used below are always in bounds). -/
def listSwap (l : List α) (i j : Nat) : List α :=
  match l.get? i, l.get? j with
  | some a, some b => (l.set i b).set j a
  | _, _ => l

/-- The reorder/purge loop of `Windows::update_transaction` (src/window.rs
lines 195-217). It walks the window list from the end: dead windows are
removed, live ones get their per-window transaction applied, and the
staged primary/secondary windows are swapped to index `0` /
`secondary_index`; after a swap the loop re-examines the same index
(`i += 1` in the source). The `fuel` argument makes the `while` loop
structurally recursive; `commitLoop` supplies `length + 3` fuel, which is
proven sufficient (each index is visited once, plus at most one re-visit
for the primary swap and one for the secondary swap). -/
def commitLoopAux (txP txS : Option Nat) (secondary_index : Nat) :
    Nat → Nat → List Window → List Window
  | 0, _, ws => ws
  | _ + 1, 0, ws => ws
  | fuel + 1, i + 1, ws =>
    match ws.get? i with
    | none => ws
    | some w =>
      if ¬ w.alive then
        commitLoopAux txP txS secondary_index fuel i (ws.eraseIdx i)
      else
        let ws1 := ws.set i w.apply_transaction
        if 0 < i ∧ txP = some w.id then
          commitLoopAux txP txS secondary_index fuel (i + 1) (listSwap ws1 0 i)
        else if secondary_index < i ∧ txS = some w.id then
          commitLoopAux txP txS secondary_index fuel (i + 1) (listSwap ws1 secondary_index i)
        else
          commitLoopAux txP txS secondary_index fuel i ws1

/-- The full commit pass over the window list. -/
def commitLoop (txP txS : Option Nat) (secondary_index : Nat) (ws : List Window) : List Window :=
  commitLoopAux txP txS secondary_index (ws.length + 3) ws.length ws

/-- Whether all transaction participants are ready:
`window.transaction.map_or(true, |t| window.acked_size == t.rectangle.size)`
for every window in the registry. -/
def Windows.txFinished (s : Windows) : Bool :=
  s.windows.all fun w =>
    match w.transaction with
    | none => true
    | some t => decide (w.acked_size = t.rectangle.size)

/-- `Windows::update_transaction` (src/window.rs lines 172-224): return
unchanged while the transaction is pending and the deadline has not
passed; otherwise purge dead windows, apply per-window transactions,
move primary/secondary to the front and install the staged view,
primary and secondary references. -/
def Windows.update_transaction (s : Windows) (now : ℚ) : Windows :=
  match s.transaction with
  | none => s
  | some t =>
    if now - t.start ≤ MAX_TRANSACTION_DURATION ∧ ¬ s.txFinished then s
    else
      let secondary_index := max (s.strongCount s.primary) 1
      let ws := commitLoop t.primary t.secondary secondary_index s.windows
      { s with
          windows := ws
          transaction := none
          view := t.view.getD s.view
          secondary := t.secondary
          primary := t.primary }

/-- `Windows::toggle_view`: stage the opposite view in the transaction. -/
def Windows.toggle_view (s : Windows) (now : ℚ) : Windows :=
  let new_view :=
    match s.view with
    | .workspace => View.overview default
    | .overview _ => View.workspace
  let (s1, t) := s.start_transaction now
  { s1 with transaction := some { t with view := some new_view } }

/-- `Windows::refresh_visible` (src/window.rs lines 152-164): drop dead
staged secondary/primary references (promoting the secondary when the
primary died) and recompute window dimensions. -/
def Windows.refresh_visible (s : Windows) (output : Output) (now : ℚ) : Windows :=
  let (s1, t) := s.start_transaction now
  let t1 :=
    if (s1.upgrade t.secondary).all (fun w => ¬ w.alive) then
      { t with secondary := none }
    else t
  let t2 :=
    if (s1.upgrade t1.primary).all (fun w => ¬ w.alive) then
      { t1 with primary := t1.secondary, secondary := none }
    else t1
  let s2 := { s1 with transaction := some t2 }
  t2.update_dimensions s2 output

/-- `Windows::set_primary` (src/window.rs lines 357-389). The index is the
caller-supplied position in the window list; indexing past the end is a
panic (`none`). -/
def Windows.set_primary (s : Windows) (output : Output) (index : Option Nat) (now : ℚ) :
    Option Windows :=
  let (s1, t) := s.start_transaction now
  match (match index with
         | some i => (s1.windows.get? i).map some
         | none => some none : Option (Option Window)) with
  | none => none
  | some window =>
    -- `window.map(Rc::downgrade).unwrap_or_else(|| mem::take(&mut transaction.secondary))`
    let weak_window := match window with
                       | some w => some w.id
                       | none => t.secondary
    let t1 := match window with
              | some _ => t
              | none => { t with secondary := none }
    if weak_window = t1.primary then
      some { s1 with transaction := some t1 }
    else
      -- Update output's visible windows.
      let s2 := match s1.upgrade t1.primary with
                | some pw => s1.modifyWindow pw.id (fun w => w.leave output)
                | none => s1
      let s3 := match window with
                | some w => s2.modifyWindow w.id Window.enter
                | none => s2
      -- Clear secondary if it is the new primary.
      let t2 := if weak_window = t1.secondary then { t1 with secondary := none } else t1
      -- Set primary and move the old one to secondary if that is empty.
      let old_primary := t2.primary
      let t3 := { t2 with primary := weak_window }
      let t4 := if s3.strongCount t3.secondary = 0 then { t3 with secondary := old_primary }
                else t3
      let s4 := { s3 with transaction := some t4 }
      some (t4.update_dimensions s4 output)

/-- `Windows::set_secondary` (src/window.rs lines 392-413). -/
def Windows.set_secondary (s : Windows) (output : Output) (index : Option Nat) (now : ℚ) :
    Option Windows :=
  let (s1, t) := s.start_transaction now
  match (match index with
         | some i => (s1.windows.get? i).map some
         | none => some none : Option (Option Window)) with
  | none => none
  | some window =>
    -- Update output's visible windows.
    let s2 := match s1.upgrade t.secondary with
              | some sw => s1.modifyWindow sw.id (fun w => w.leave output)
              | none => s1
    let s3 := match window with
              | some w => s2.modifyWindow w.id Window.enter
              | none => s2
    -- Clear primary if it is the new secondary.
    let weak_window := window.map (·.id)
    let t1 := if (match weak_window with
                  | some wid => some wid == t.primary
                  | none => false) then { t with primary := none } else t
    -- Set secondary and recompute window dimensions.
    let t2 := { t1 with secondary := weak_window }
    let s4 := { s3 with transaction := some t2 }
    some (t2.update_dimensions s4 output)

/-- `Windows::on_touch_start` (src/window.rs lines 236-246). -/
def Windows.on_touch_start (s : Windows) (output : Output) (point : QPoint) (now : ℚ) :
    Option Windows :=
  match s.view with
  | .workspace => some s
  | .overview o =>
    match o.focused_bounds output.size s.windows.length with
    | none => none
    | some window_bounds =>
      let o1 := if window_bounds.contains point.to_i32_round
                then { o with hold_start := some now } else o
      some { s with view := .overview { o1 with last_drag_point := point } }

/-- `Windows::on_tap` (src/window.rs lines 249-270). -/
def Windows.on_tap (s : Windows) (output : Output) (point : QPoint) (now : ℚ) :
    Option Windows :=
  match s.view with
  | .workspace => some s
  | .overview o0 =>
    let o := { o0 with hold_start := none }
    let s1 := { s with view := View.overview o }
    match o.focused_bounds output.size s1.windows.length with
    | none => none
    | some window_bounds =>
      if window_bounds.contains point.to_i32_round then do
        let index ← o.focused_index s1.windows.length
        -- Clear secondary unless *only* primary is empty.
        let s2 ← s1.set_primary output (some index) now
        let s3 ← if 0 < s2.strongCount s2.primary
                 then s2.set_secondary output none now
                 else pure s2
        pure (s3.toggle_view now)
      else some s1

/-- `Windows::on_drag` (src/window.rs lines 275-323). -/
def Windows.on_drag (s : Windows) (output : Output) (point : QPoint) (now : ℚ) :
    Option Windows :=
  match s.view with
  | .workspace => some s
  | .overview o0 =>
    let delta : QPoint := ⟨point.x - o0.last_drag_point.x, point.y - o0.last_drag_point.y⟩
    let o1 := { o0 with last_drag_point := point }
    match o1.floating_position with
    | some fp =>
      let o2 := { o1 with floating_position := some ⟨fp.x + delta.x, fp.y + delta.y⟩ }
      some { s with view := .overview o2 }
    | none =>
      let drag_direction := o1.drag_direction.getD
        (if |delta.x| ≥ |delta.y| then .horizontal else .vertical)
      let o2 := { o1 with drag_direction := some drag_direction }
      match drag_direction with
      | .horizontal =>
        let o3 := { o2 with
                      x_offset := o2.x_offset + delta.x / OVERVIEW_HORIZONTAL_SENSITIVITY
                      last_overdrag_step := none
                      hold_start := none
                      y_offset := 0 }
        some { s with view := .overview o3 }
      | .vertical =>
        if o2.close_release_pending then
          -- `_ => ()` arm: direction is latched but the drag is ignored.
          some { s with view := .overview o2 }
        else
          let o3 := { o2 with
                        last_overdrag_step := none
                        hold_start := none
                        y_offset := o2.y_offset + delta.y }
          -- Close window once offset surpassed the threshold.
          let close_distance := (output.size.h : ℚ) * OVERVIEW_CLOSE_DISTANCE
          if close_distance ≤ |o3.y_offset| ∧ s.windows ≠ [] then do
            let index ← o3.focused_index s.windows.length
            let w ← s.windows.get? index
            let o4 := { o3 with
                          last_overdrag_step := some now
                          close_release_pending := true
                          y_offset := 0 }
            let s1 := { s with
                          closeRequests := s.closeRequests ++ [w.id]
                          windows := s.windows.eraseIdx index
                          view := .overview o4 }
            pure (s1.refresh_visible output now)
          else
            some { s with view := .overview o3 }

/-- `Windows::on_drag_release` (src/window.rs lines 326-350). -/
def Windows.on_drag_release (s : Windows) (output : Output) (now : ℚ) : Option Windows :=
  let second_block : Windows :=
    match s.view with
    | .overview o =>
      let o1 := { o with
                    last_overdrag_step := some now
                    close_release_pending := false
                    floating_position := none }
      { s with view := .overview o1 }
    | .workspace => s
  match s.view with
  | .overview o =>
    if o.floating_position.isSome then
      if o.last_drag_point.y < (output.size.h : ℚ) / 3 then do
        let index ← o.focused_index s.windows.length
        let s1 ← s.set_primary output (some index) now
        pure (s1.toggle_view now)
      else if o.last_drag_point.y ≥ (output.size.h : ℚ) / (3/2) then do
        let index ← o.focused_index s.windows.length
        let s1 ← s.set_secondary output (some index) now
        pure (s1.toggle_view now)
      else some second_block
    else some second_block
  | .workspace => some second_block

/-! ## Concrete inputs used by witnesses and counterexamples -/

/-- A texture with a fully populated two-entry damage ring. -/
def texC3 : Texture := ⟨[⟨0, 0, 5, 5⟩, ⟨1, 1, 2, 2⟩], ⟨0, 0⟩, ⟨10, 10⟩, 1⟩

/-- A damage history with both ring slots and the buffer list populated. -/
def damC4 : Damage := ⟨(⟨1, 2, 3, 4⟩, ⟨5, 6, 7, 8⟩), [⟨0, 0, 1, 1⟩]⟩

/-- A registry with an empty window list and an active empty transaction. -/
def stateC1 : Windows := ⟨[], none, none, some ⟨none, none, none, 0⟩, .workspace, []⟩

/-- A window that never acks: its acked size differs from the staged one. -/
def slowWindow : Window :=
  ⟨7, true, true, ⟨100, 100⟩, ⟨0, 0, 100, 100⟩, true, some ⟨⟨0, 0, 50, 100⟩⟩⟩

/-- A registry whose single window has a pending, un-acked sub-transaction. -/
def stateC1b : Windows :=
  ⟨[slowWindow], some 7, none, some ⟨some 7, none, none, 0⟩, .workspace, []⟩

/-- Output used by gesture witnesses: a 100x200 logical size. -/
def outTall : Output := ⟨⟨100, 200⟩, fun _ => ⟨0, 0, 50, 100⟩, ⟨0, 100, 50, 100⟩⟩

/-- Output used by the tap witness: a 100x100 logical size, so the focused
overview bounds are the rectangle (13, 12, 75, 75). -/
def outSquare : Output := ⟨⟨100, 100⟩, fun _ => ⟨0, 0, 50, 50⟩, ⟨0, 50, 50, 50⟩⟩

/-- Overview state far outside the overdrag interval with a running
bounce-back animation. -/
def ovC6 : Overview := ⟨100, -7, none, ⟨0, 0⟩, some 5, none, false, none⟩

/-- Overview state with a latched vertical drag, one unit below the close
threshold of the 100x200 output. -/
def ovC7 : Overview := ⟨0, 99, none, ⟨0, 0⟩, none, some .vertical, false, none⟩

/-- A live, configured window. -/
def winC7 : Window := ⟨3, true, true, ⟨100, 200⟩, ⟨0, 0, 100, 200⟩, true, none⟩

/-- Registry in overview with one window and a latched vertical drag. -/
def stateC7 : Windows := ⟨[winC7], some 3, none, none, .overview ovC7, []⟩

/-- Overview state with a latched horizontal axis and no active gesture
extras. -/
def ovC8 : Overview := ⟨0, 0, none, ⟨0, 0⟩, none, some .horizontal, false, none⟩

/-- Registry in overview with a latched horizontal axis. -/
def stateC8 : Windows := ⟨[], none, none, none, .overview ovC8, []⟩

/-- The registry `stateC8` after `on_drag_release` at `now = 7`: the drag
axis is still latched. -/
def stateC8r : Windows :=
  ⟨[], none, none, none, .overview ⟨0, 0, none, ⟨0, 0⟩, some 7, some .horizontal, false, none⟩, []⟩

/-- A live window used by the tap witness. -/
def winC9 : Window := ⟨1, true, true, ⟨100, 100⟩, ⟨0, 0, 100, 100⟩, true, none⟩

/-- Registry in overview (default gesture state) with one live window that
is also the live primary. -/
def stateC9 : Windows := ⟨[winC9], some 1, none, none, .overview default, []⟩

/-- Registry in overview with an empty window list. -/
def stateC10 : Windows := ⟨[], none, none, none, .overview default, []⟩

/-- Registry in overview with an empty window list and a floating window
drop at the top third of the 100x200 output. -/
def stateC10f : Windows :=
  ⟨[], none, none, none,
   .overview ⟨0, 0, some ⟨0, 0⟩, ⟨0, 10⟩, none, none, false, none⟩, []⟩

/-- Window `S`: alive, no pending sub-transaction. -/
def winS : Window := ⟨0, true, true, ⟨40, 40⟩, ⟨0, 0, 40, 40⟩, true, none⟩

/-- Window `X`: alive, no pending sub-transaction. -/
def winX : Window := ⟨1, true, true, ⟨40, 40⟩, ⟨0, 0, 40, 40⟩, true, none⟩

/-- Window `P`: alive, no pending sub-transaction. -/
def winP : Window := ⟨2, true, true, ⟨40, 40⟩, ⟨0, 0, 40, 40⟩, true, none⟩

/-- Registry whose active transaction stages window `S` (at index 0) as
secondary and stages no primary; reachable by dropping the floating
focused window onto the bottom third while it is the live primary. -/
def stateC2 : Windows :=
  ⟨[winS, winX], none, none, some ⟨none, some 0, some .workspace, 0⟩, .workspace, []⟩

/-- Registry whose active transaction stages `P` as primary and `S` as
secondary while the list order is `[X, P, S]`. -/
def stateC2w : Windows :=
  ⟨[winX, winP, winS], some 2, some 0, some ⟨some 2, some 0, none, 0⟩, .workspace, []⟩

/-! ### Commit-loop bookkeeping -/

/-- Invariant of the commit loop: every position at or above the cursor
holds a live window whose per-window transaction has been applied, the
staged primary can only sit at index 0 and the staged secondary at index
0 or 1. -/
def commitInv (txP txS : Option Nat) (i : Nat) (ws : List Window) : Prop :=
  ∀ j, i ≤ j → ∀ w, ws.get? j = some w →
    w.alive = true ∧ w.transaction = none ∧
    (txP = some w.id → j = 0) ∧ (txS = some w.id → j ≤ 1)

/-- Fuel budget for a pending primary swap: 2 when the staged primary id
still sits at an index ≥ 1 of the id list, else 0. -/
def primaryPending (txP : Option Nat) (ids : List Nat) : Nat :=
  if (ids.drop 1).any (fun n => txP == some n) then 2 else 0

/-- Fuel budget for a pending secondary swap: 1 when the staged secondary
id still sits at an index ≥ 2 of the id list, else 0. -/
def secondaryPending (txS : Option Nat) (ids : List Nat) : Nat :=
  if (ids.drop 2).any (fun n => txS == some n) then 1 else 0

/-- The id list carries no duplicates, phrased positionally: the same id
cannot occur at two different positions. This is the `Rc` uniqueness of the
window allocations. -/
def distinctAt (ids : List Nat) : Prop :=
  ∀ j k x, ids.get? j = some x → ids.get? k = some x → j = k

/-- A live window with the given id occurs somewhere in the list. -/
def hasLiveId (p : Nat) (ws : List Window) : Prop :=
  ∃ j w, ws.get? j = some w ∧ w.id = p ∧ w.alive = true

/-- Gesture operations leave the registry shell intact: view, live
primary/secondary references, close-request log and the identities of the
listed windows (in order) are unchanged. -/
def sameShell (s s' : Windows) : Prop :=
  s'.view = s.view ∧ s'.primary = s.primary ∧ s'.secondary = s.secondary ∧
  s'.closeRequests = s.closeRequests ∧
  s'.windows.map (fun w => w.id) = s.windows.map (fun w => w.id)

/-! ## Helper lemmas -/

theorem QRect.default_def : (default : QRect) = ⟨0, 0, 0, 0⟩ := rfl

theorem txFinished_iff (s : Windows) :
    s.txFinished = true ↔
      ∀ w ∈ s.windows, ∀ wt : WindowTransaction,
        w.transaction = some wt → w.acked_size = wt.rectangle.size := by
  unfold Windows.txFinished
  rw [List.all_eq_true]
  constructor
  · intro h w hw wt hwt
    have := h w hw
    rw [hwt] at this
    simpa using this
  · intro h w hw
    cases hwt : w.transaction with
    | none => simp
    | some wt => simpa using h w hw wt hwt

/-! ## Claim C1 -/

/-- C1: with an active transaction, `update_transaction` commits (consumes
the transaction) iff every window with a pending per-window transaction
has acked the staged size, or strictly more than `MAX_TRANSACTION_DURATION`
(200 ms) has elapsed since the transaction started.  In particular a
transaction none of whose windows has a pending sub-transaction commits on
the very next check, and a transaction with a never-acking window is left
completely untouched before the deadline and commits at the first check
after it. -/
theorem update_transaction_commit_iff (s : Windows) (now : ℚ) (t : Transaction)
    (ht : s.transaction = some t) :
    ((s.update_transaction now).transaction = none ↔
      ((∀ w ∈ s.windows, ∀ wt : WindowTransaction,
          w.transaction = some wt → w.acked_size = wt.rectangle.size) ∨
        MAX_TRANSACTION_DURATION < now - t.start))
    ∧ ((∀ w ∈ s.windows, w.transaction = none) →
        (s.update_transaction now).transaction = none)
    ∧ (∀ w ∈ s.windows, ∀ wt : WindowTransaction,
        w.transaction = some wt → w.acked_size ≠ wt.rectangle.size →
        (now - t.start ≤ MAX_TRANSACTION_DURATION → s.update_transaction now = s) ∧
        (MAX_TRANSACTION_DURATION < now - t.start →
          (s.update_transaction now).transaction = none)) := by
  have hskip : ∀ _ : now - t.start ≤ MAX_TRANSACTION_DURATION ∧ ¬ s.txFinished = true,
      s.update_transaction now = s := by
    intro hc
    unfold Windows.update_transaction
    simp only [ht]
    rw [if_pos hc]
  have hcommit : ∀ _ : ¬ (now - t.start ≤ MAX_TRANSACTION_DURATION ∧ ¬ s.txFinished = true),
      (s.update_transaction now).transaction = none := by
    intro hc
    unfold Windows.update_transaction
    simp only [ht]
    rw [if_neg hc]
  have main : (s.update_transaction now).transaction = none ↔
      ((∀ w ∈ s.windows, ∀ wt : WindowTransaction,
          w.transaction = some wt → w.acked_size = wt.rectangle.size) ∨
        MAX_TRANSACTION_DURATION < now - t.start) := by
    constructor
    · intro h
      by_cases hc : now - t.start ≤ MAX_TRANSACTION_DURATION ∧ ¬ s.txFinished = true
      · rw [hskip hc, ht] at h
        exact absurd h (by simp)
      · rcases not_and_or.1 hc with h1 | h1
        · exact Or.inr (not_le.1 h1)
        · exact Or.inl ((txFinished_iff s).1 (by simpa using h1))
    · intro hrhs
      refine hcommit ?_
      intro hc
      rcases hrhs with h1 | h1
      · exact hc.2 ((txFinished_iff s).2 h1)
      · exact absurd hc.1 (not_le.2 h1)
  refine ⟨main, ?_, ?_⟩
  · intro hnone
    exact main.2 (Or.inl (fun w hw wt hwt => absurd hwt (by rw [hnone w hw]; simp)))
  · intro w hw wt hwt hne
    have hfin : ¬ s.txFinished = true := by
      intro h
      exact hne ((txFinished_iff s).1 h w hw wt hwt)
    exact ⟨fun hle => hskip ⟨hle, hfin⟩, fun hlt => main.2 (Or.inr hlt)⟩

/-- Witness for C1 at concrete inputs: the empty-window transaction commits
immediately at `now = 0`, and the never-acking single-window transaction is
untouched at `now = 200` and commits at `now = 201`. -/
theorem update_transaction_commit_iff_witness :
    stateC1.transaction = some ⟨none, none, none, 0⟩ ∧
    (stateC1.update_transaction 0).transaction = none ∧
    stateC1b.update_transaction 200 = stateC1b ∧
    (stateC1b.update_transaction 201).transaction = none := by
  have h1 := (update_transaction_commit_iff stateC1 0 ⟨none, none, none, 0⟩ rfl).2.1
  have h2 := (update_transaction_commit_iff stateC1b 200 ⟨some 7, none, none, 0⟩ rfl).2.2
    slowWindow (by simp [stateC1b]) ⟨⟨0, 0, 50, 100⟩⟩ rfl
    (by norm_num [slowWindow, IRect.size])
  have h3 := (update_transaction_commit_iff stateC1b 201 ⟨some 7, none, none, 0⟩ rfl).2.2
    slowWindow (by simp [stateC1b]) ⟨⟨0, 0, 50, 100⟩⟩ rfl
    (by norm_num [slowWindow, IRect.size])
  refine ⟨rfl, h1 (by simp [stateC1]), ?_, ?_⟩
  · exact h2.1 (by norm_num [MAX_TRANSACTION_DURATION])
  · exact h3.2 (by norm_num [MAX_TRANSACTION_DURATION])

/-! ## Claim C4 -/

/-- C4: a single `clear()` empties the buffer-space damage list and the
newest physical ring slot, ages the previous newest entry by one slot and
discards the oldest; consequently any `n ≥ MAX_DAMAGE_AGE` consecutive
`clear()` calls leave the entire ring (and the buffer list) empty. -/
theorem damage_clear_ring (d : Damage) :
    Damage.clear d = ⟨(default, d.physical.1), []⟩ ∧
    ∀ n : Nat, MAX_DAMAGE_AGE ≤ n → Damage.clear^[n] d = ⟨(default, default), []⟩ := by
  refine ⟨rfl, ?_⟩
  intro n hn
  obtain ⟨k, rfl⟩ : ∃ k, n = k + 2 := ⟨n - 2, by simp [MAX_DAMAGE_AGE] at hn; omega⟩
  rw [Function.iterate_add_apply]
  have fix : ∀ m, Damage.clear^[m] ⟨(default, default), []⟩ = ⟨(default, default), []⟩ := by
    intro m
    induction m with
    | zero => rfl
    | succ m ih =>
      rw [Function.iterate_succ_apply,
        show Damage.clear ⟨(default, default), []⟩ = ⟨(default, default), []⟩ from rfl, ih]
  rw [show Damage.clear^[2] d = ⟨(default, default), []⟩ from rfl, fix]

/-- Witness for C4 at a concrete damage history and `n = 3`. -/
theorem damage_clear_ring_witness :
    MAX_DAMAGE_AGE ≤ 3 ∧ Damage.clear^[3] damC4 = ⟨(default, default), []⟩ :=
  ⟨by norm_num [MAX_DAMAGE_AGE],
   (damage_clear_ring damC4).2 3 (by norm_num [MAX_DAMAGE_AGE])⟩

/-! ## Claim C5 -/

/-- C5: the overview layout formula, pinned at the fifteen reference
points demanded by the spec (three parameter sets, positions -2..2). -/
theorem overview_x_position_values :
    overview_x_position (1/2) (1/2) 100 50 (-2) = 6 ∧
    overview_x_position (1/2) (1/2) 100 50 (-1) = 13 ∧
    overview_x_position (1/2) (1/2) 100 50 0 = 25 ∧
    overview_x_position (1/2) (1/2) 100 50 1 = 37 ∧
    overview_x_position (1/2) (1/2) 100 50 2 = 44 ∧
    overview_x_position (1/2) (3/4) 100 50 (-2) = 2 ∧
    overview_x_position (1/2) (3/4) 100 50 (-1) = 6 ∧
    overview_x_position (1/2) (3/4) 100 50 0 = 25 ∧
    overview_x_position (1/2) (3/4) 100 50 1 = 44 ∧
    overview_x_position (1/2) (3/4) 100 50 2 = 48 ∧
    overview_x_position (3/4) (3/4) 100 50 (-2) = 1 ∧
    overview_x_position (3/4) (3/4) 100 50 (-1) = 3 ∧
    overview_x_position (3/4) (3/4) 100 50 0 = 13 ∧
    overview_x_position (3/4) (3/4) 100 50 1 = 47 ∧
    overview_x_position (3/4) (3/4) 100 50 2 = 49 := by
  refine ⟨?_, ?_, ?_, ?_, ?_, ?_, ?_, ?_, ?_, ?_, ?_, ?_, ?_, ?_, ?_⟩ <;>
    norm_num [overview_x_position, powfQ, roundAway, Int.toNat]

/-! ## Claim C3 -/

/-- C3 (code bug): `Texture::draw_at` uses the newest `buffer_age` ring
entries for `1 ≤ buffer_age ≤ MAX_DAMAGE_AGE` and a single full-surface
damage rectangle for `buffer_age = 0`, but for `buffer_age = 3 >
MAX_DAMAGE_AGE` the unguarded slice `&self.damage[..buffer_age]` indexes
out of bounds and panics instead of falling back to full damage. -/
theorem draw_at_damage_selection :
    texC3.draw_at 1 ⟨0, 0, 100, 100⟩ 1 0 = .rendered [⟨0, 0, 10, 10⟩] ∧
    texC3.draw_at 1 ⟨0, 0, 100, 100⟩ 1 1 = .rendered [⟨0, 0, 5, 5⟩] ∧
    texC3.draw_at 1 ⟨0, 0, 100, 100⟩ 1 2 = .rendered [⟨0, 0, 5, 5⟩, ⟨1, 1, 2, 2⟩] ∧
    texC3.draw_at 1 ⟨0, 0, 100, 100⟩ 1 3 = .panicked := by
  refine ⟨?_, ?_, ?_, ?_⟩ <;>
    norm_num [Texture.draw_at, texC3, slicePrefix, ISize.scale, ISize.max2, IRect.size,
      truncQ, QRect.default_def]

/-! ## Claim C6 -/

theorem clampMinMax_lo (x lo hi : ℚ) (h : lo ≤ hi) : lo ≤ min (max x lo) hi :=
  le_min (le_max_right x lo) h

theorem clampMinMax_hi (x lo hi : ℚ) : min (max x lo) hi ≤ hi := min_le_right _ _

/-- C6: the overview X offset, as observed by the per-frame draw (which
runs `clamp_offset` before reading it), always lies in
`[-(window_count - 1) - OVERDRAG_LIMIT, OVERDRAG_LIMIT]` — no matter what
value any sequence of `on_drag` deltas accumulated into `x_offset`
beforehand: the bound holds for every overview state `o`, hence in
particular for every drag-reachable one. The bounce-back animation uses a
nonnegative elapsed time (`Instant` is monotone), which is the `hstep`
hypothesis. -/
theorem clamp_offset_bounds (o : Overview) (window_count : Int) (now : ℚ)
    (hcount : 1 ≤ window_count)
    (hstep : ∀ t, o.last_overdrag_step = some t → t ≤ now) :
    -(window_count : ℚ) + 1 - OVERDRAG_LIMIT ≤ (o.clamp_offset window_count now).x_offset ∧
    (o.clamp_offset window_count now).x_offset ≤ OVERDRAG_LIMIT := by
  have hcQ : (1 : ℚ) ≤ (window_count : ℚ) := by exact_mod_cast hcount
  have hOD : OVERDRAG_LIMIT = (3 : ℚ) := rfl
  have hmo_le : -(window_count : ℚ) + 1 ≤ 0 := by linarith
  have hlohi : -(window_count : ℚ) + 1 - OVERDRAG_LIMIT ≤ OVERDRAG_LIMIT := by
    rw [hOD]; linarith
  unfold Overview.clamp_offset
  cases hs : o.last_overdrag_step with
  | none =>
    simp only [hs]
    exact ⟨clampMinMax_lo _ _ _ hlohi, clampMinMax_hi _ _ _⟩
  | some step =>
    simp only [hs]
    set mo : ℚ := -(window_count : ℚ) + 1 with hmo
    set x0 : ℚ := min (max o.x_offset (mo - OVERDRAG_LIMIT)) OVERDRAG_LIMIT with hx0
    have hx0_lo : mo - OVERDRAG_LIMIT ≤ x0 := clampMinMax_lo _ _ _ hlohi
    have hx0_hi : x0 ≤ OVERDRAG_LIMIT := clampMinMax_hi _ _ _
    have hdelta : 0 ≤ now - step := by have := hstep step hs; linarith
    have hod : 0 ≤ (now - step) / OVERDRAG_ANIMATION_SPEED := by
      have h25 : (OVERDRAG_ANIMATION_SPEED : ℚ) = 25 := rfl
      rw [h25]; positivity
    set od : ℚ := (now - step) / OVERDRAG_ANIMATION_SPEED with hodd
    constructor
    · split_ifs with h1 h2
      · have hm : min od x0 ≤ x0 := min_le_right _ _
        linarith [hOD, hmo_le, hm]
      · rcases le_total (x0 + od) mo with h | h
        · rw [min_eq_left h]; linarith [hx0_lo, hod]
        · rw [min_eq_right h]; linarith [hOD]
      · exact hx0_lo
    · split_ifs with h1 h2
      · have hm : 0 ≤ min od x0 := le_min hod (le_of_lt h1)
        linarith [hx0_hi, hm]
      · have hm : min (x0 + od) mo ≤ mo := min_le_right _ _
        linarith [hOD, hmo_le, hm]
      · exact hx0_hi

/-- Witness for C6: a state dragged to `x_offset = 100` with four windows
and a running animation is clamped back into `[-6, 3]`. -/
theorem clamp_offset_bounds_witness :
    (1 : Int) ≤ 4 ∧
    -((4 : Int) : ℚ) + 1 - OVERDRAG_LIMIT ≤ (ovC6.clamp_offset 4 10).x_offset ∧
    (ovC6.clamp_offset 4 10).x_offset ≤ OVERDRAG_LIMIT :=
  ⟨by norm_num,
   clamp_offset_bounds ovC6 4 10 (by norm_num)
     (by intro t ht; simp [ovC6] at ht; rw [← ht]; norm_num)⟩

/-! ## Shell-preservation lemmas for the gesture operations -/

theorem sameShell_refl (s : Windows) : sameShell s s := ⟨rfl, rfl, rfl, rfl, rfl⟩

theorem sameShell_trans {a b c : Windows} (h1 : sameShell a b) (h2 : sameShell b c) :
    sameShell a c :=
  ⟨h2.1.trans h1.1, h2.2.1.trans h1.2.1, h2.2.2.1.trans h1.2.2.1,
   h2.2.2.2.1.trans h1.2.2.2.1, h2.2.2.2.2.trans h1.2.2.2.2⟩

theorem modifyWindow_shell (s : Windows) (i : Nat) (f : Window → Window)
    (hf : ∀ w, (f w).id = w.id) : sameShell s (s.modifyWindow i f) := by
  refine ⟨rfl, rfl, rfl, rfl, ?_⟩
  simp only [Windows.modifyWindow, List.map_map]
  refine List.map_congr_left ?_
  intro w _
  show (if (w.id == i) = true then f w else w).id = w.id
  split <;> simp [hf]

theorem window_leave_id (w : Window) (out : Output) : (w.leave out).id = w.id := rfl

theorem window_enter_id (w : Window) : w.enter.id = w.id := rfl

theorem window_update_dimensions_id (w : Window) (r : IRect) :
    (w.update_dimensions r).id = w.id := rfl

theorem update_dimensions_shell (t : Transaction) (s : Windows) (out : Output) :
    sameShell s (t.update_dimensions s out) := by
  unfold Transaction.update_dimensions
  cases h1 : s.upgrade t.primary with
  | none =>
    simp only []
    cases h2 : s.upgrade t.secondary with
    | none => exact sameShell_refl s
    | some sw => exact modifyWindow_shell s sw.id _ (fun w => rfl)
  | some pw =>
    simp only []
    set s1 := s.modifyWindow pw.id
      (fun w => w.update_dimensions (out.primary_rectangle (decide (0 < s.strongCount t.secondary))))
      with hs1
    have hshell1 : sameShell s s1 := modifyWindow_shell s pw.id _ (fun w => rfl)
    cases h2 : s1.upgrade t.secondary with
    | none => exact hshell1
    | some sw =>
      exact sameShell_trans hshell1 (modifyWindow_shell s1 sw.id _ (fun w => rfl))

theorem update_dimensions_transaction (t : Transaction) (s : Windows) (out : Output) :
    (t.update_dimensions s out).transaction = s.transaction := by
  unfold Transaction.update_dimensions
  cases h1 : s.upgrade t.primary <;> simp only [] <;>
    [skip;
     set s1 := s.modifyWindow _ _ with hs1]
  · cases h2 : s.upgrade t.secondary <;> rfl
  · cases h2 : s1.upgrade t.secondary <;> rfl

theorem strongCount_congr {s s' : Windows} (p : Option Nat)
    (h : s'.windows.map (fun w => w.id) = s.windows.map (fun w => w.id)) :
    s'.strongCount p = s.strongCount p := by
  cases p with
  | none => rfl
  | some i =>
    show s'.windows.countP (fun w => w.id == i) = s.windows.countP (fun w => w.id == i)
    have key : ∀ l : List Window,
        l.countP (fun w => w.id == i) = (l.map (fun w => w.id)).countP (fun n => n == i) := by
      intro l
      rw [List.countP_map]
      rfl
    rw [key, key, h]

theorem start_transaction_shell (s : Windows) (now : ℚ) :
    sameShell s (s.start_transaction now).1 ∧ (s.start_transaction now).1.windows = s.windows := by
  unfold Windows.start_transaction
  cases htx : s.transaction <;> exact ⟨⟨rfl, rfl, rfl, rfl, rfl⟩, rfl⟩

theorem shell_with_transaction (a b : Windows) (t : Option Transaction)
    (h : sameShell a b) : sameShell a { b with transaction := t } :=
  ⟨h.1, h.2.1, h.2.2.1, h.2.2.2.1, h.2.2.2.2⟩

theorem set_primary_shell {s : Windows} {out : Output} {idx : Option Nat} {now : ℚ}
    {s' : Windows} (h : s.set_primary out idx now = some s') : sameShell s s' := by
  unfold Windows.set_primary at h
  cases htx : s.transaction <;>
    simp only [Windows.start_transaction, htx] at h <;>
  · split at h
    · exact absurd h (by simp)
    · split at h
      · rw [Option.some_inj] at h
        subst h
        exact ⟨rfl, rfl, rfl, rfl, rfl⟩
      · rw [Option.some_inj] at h
        subst h
        refine sameShell_trans ?_ (update_dimensions_shell _ _ _)
        refine shell_with_transaction _ _ _ ?_
        split
        · refine sameShell_trans ?_ (modifyWindow_shell _ _ _ (fun w => rfl))
          split
          · exact sameShell_trans ⟨rfl, rfl, rfl, rfl, rfl⟩
              (modifyWindow_shell _ _ _ (fun w => rfl))
          · exact ⟨rfl, rfl, rfl, rfl, rfl⟩
        · split
          · exact sameShell_trans ⟨rfl, rfl, rfl, rfl, rfl⟩
              (modifyWindow_shell _ _ _ (fun w => rfl))
          · exact ⟨rfl, rfl, rfl, rfl, rfl⟩

theorem set_secondary_shell {s : Windows} {out : Output} {idx : Option Nat} {now : ℚ}
    {s' : Windows} (h : s.set_secondary out idx now = some s') : sameShell s s' := by
  unfold Windows.set_secondary at h
  cases htx : s.transaction <;>
    simp only [Windows.start_transaction, htx] at h <;>
  · split at h
    · exact absurd h (by simp)
    · rw [Option.some_inj] at h
      subst h
      refine sameShell_trans ?_ (update_dimensions_shell _ _ _)
      refine shell_with_transaction _ _ _ ?_
      split
      · refine sameShell_trans ?_ (modifyWindow_shell _ _ _ (fun w => rfl))
        split
        · exact sameShell_trans ⟨rfl, rfl, rfl, rfl, rfl⟩
            (modifyWindow_shell _ _ _ (fun w => rfl))
        · exact ⟨rfl, rfl, rfl, rfl, rfl⟩
      · split
        · exact sameShell_trans ⟨rfl, rfl, rfl, rfl, rfl⟩
            (modifyWindow_shell _ _ _ (fun w => rfl))
        · exact ⟨rfl, rfl, rfl, rfl, rfl⟩

theorem toggle_view_shell (s : Windows) (now : ℚ) : sameShell s (s.toggle_view now) := by
  unfold Windows.toggle_view
  cases htx : s.transaction <;>
    simp only [Windows.start_transaction, htx] <;>
    exact ⟨rfl, rfl, rfl, rfl, rfl⟩

theorem toggle_view_tx {s : Windows} {now : ℚ} {t0 : Transaction}
    (htx : s.transaction = some t0) :
    (s.toggle_view now).transaction = some
      { t0 with view := some (match s.view with
                              | .workspace => View.overview default
                              | .overview _ => View.workspace) } := by
  unfold Windows.toggle_view
  simp only [Windows.start_transaction, htx]

theorem refresh_visible_shell (s : Windows) (out : Output) (now : ℚ) :
    sameShell s (s.refresh_visible out now) := by
  unfold Windows.refresh_visible
  cases htx : s.transaction <;>
    simp only [Windows.start_transaction, htx] <;>
    exact sameShell_trans (shell_with_transaction _ _ _ (sameShell_refl _))
      (update_dimensions_shell _ _ _)

theorem set_primary_some_tx {s : Windows} {out : Output} {i : Nat} {now : ℚ}
    {w : Window} {s' : Windows} (hw : s.windows.get? i = some w)
    (h : s.set_primary out (some i) now = some s') :
    ∃ t', s'.transaction = some t' ∧ t'.primary = some w.id := by
  unfold Windows.set_primary at h
  cases htx : s.transaction <;>
    simp only [Windows.start_transaction, htx, hw, Option.map_some'] at h <;>
  · split at h
    · rw [Option.some_inj] at h
      subst h
      rename_i hpe
      exact ⟨_, rfl, hpe.symm⟩
    · rw [Option.some_inj] at h
      subst h
      rw [update_dimensions_transaction]
      refine ⟨_, rfl, ?_⟩
      split <;> (try split) <;> rfl

theorem set_secondary_none_tx {s : Windows} {out : Output} {now : ℚ} {t0 : Transaction}
    {s' : Windows} (htx : s.transaction = some t0)
    (h : s.set_secondary out none now = some s') :
    s'.transaction = some { t0 with secondary := none } := by
  unfold Windows.set_secondary at h
  simp only [Windows.start_transaction, htx] at h
  rw [Option.some_inj] at h
  subst h
  rw [update_dimensions_transaction]
  simp

/-! ## Claim C8 -/

/-- C8 counterexample: releasing a gesture does not reset the latched drag
axis. From a state with a latched horizontal axis, `on_drag_release`
keeps `drag_direction = some horizontal`, and the next gesture's first
move — a purely vertical delta `(0, 10)` — is still processed as a
horizontal drag instead of latching the axis afresh. -/
theorem drag_axis_not_reset_counterexample :
    Windows.on_drag_release stateC8 outTall 7 = some stateC8r ∧
    (match stateC8r.view with
     | .overview o => o.drag_direction
     | .workspace => none) = some Direction.horizontal ∧
    Windows.on_drag stateC8r outTall ⟨0, 10⟩ 8 =
      some ⟨[], none, none, none,
            .overview ⟨0, 0, none, ⟨0, 10⟩, none, some .horizontal, false, none⟩, []⟩ := by
  refine ⟨?_, rfl, ?_⟩
  · norm_num [Windows.on_drag_release, stateC8, stateC8r, ovC8, outTall]
  · norm_num [Windows.on_drag, stateC8r, outTall, OVERVIEW_HORIZONTAL_SENSITIVITY]

/-- C8 (amended): the drag axis is latched by the first `on_drag` move of
a gesture (horizontal when `|dx| ≥ |dy|`, else vertical) and never changes
during the gesture; however, `on_drag_release` does *not* reset it — the
latched axis persists into the next gesture and is only discarded when the
overview state itself is recreated (view toggle). -/
theorem drag_axis_latching (s : Windows) (out : Output) (p : QPoint) (now : ℚ) (o : Overview) :
    (s.view = .overview o → o.floating_position = none → o.drag_direction = none →
      ∀ s', s.on_drag out p now = some s' →
        ∃ o', s'.view = .overview o' ∧
          o'.drag_direction = some (if |p.x - o.last_drag_point.x| ≥ |p.y - o.last_drag_point.y|
                                    then .horizontal else .vertical))
    ∧ (s.view = .overview o → ∀ d, o.drag_direction = some d →
        ∀ s', s.on_drag out p now = some s' →
          ∃ o', s'.view = .overview o' ∧ o'.drag_direction = some d)
    ∧ (s.view = .overview o → ∀ s', s.on_drag_release out now = some s' →
        ∃ o', s'.view = .overview o' ∧ o'.drag_direction = o.drag_direction) := by
  have main : ∀ dir, s.view = .overview o → o.floating_position = none →
      o.drag_direction.getD (if |p.x - o.last_drag_point.x| ≥ |p.y - o.last_drag_point.y|
                             then .horizontal else .vertical) = dir →
      ∀ s', s.on_drag out p now = some s' →
        ∃ o', s'.view = .overview o' ∧ o'.drag_direction = some dir := by
    intro dir hview hfl hdir s' hs'
    unfold Windows.on_drag at hs'
    rw [hview] at hs'
    try dsimp only at hs'
    rw [hfl] at hs'
    try dsimp only at hs'
    rw [hdir] at hs'
    cases dir with
    | horizontal =>
      try dsimp only at hs'
      rw [Option.some_inj] at hs'
      subst hs'
      exact ⟨_, rfl, rfl⟩
    | vertical =>
      try dsimp only at hs'
      by_cases hp : o.close_release_pending = true
      · rw [if_pos hp, Option.some_inj] at hs'
        subst hs'
        exact ⟨_, rfl, rfl⟩
      · rw [if_neg hp] at hs'
        split at hs'
        · simp only [Option.bind_eq_bind, Option.bind_eq_some, Option.pure_def,
            Option.some_inj] at hs'
          obtain ⟨idx, hidx, w, hw, hs'⟩ := hs'
          subst hs'
          rw [(refresh_visible_shell _ out now).1]
          exact ⟨_, rfl, rfl⟩
        · rw [Option.some_inj] at hs'
          subst hs'
          exact ⟨_, rfl, rfl⟩
  refine ⟨?_, ?_, ?_⟩
  · intro hview hfl hdir s' hs'
    exact main _ hview hfl (by rw [hdir]; rfl) s' hs'
  · intro hview d hdir s' hs'
    cases hfl : o.floating_position with
    | none => exact main d hview hfl (by rw [hdir]; rfl) s' hs'
    | some fp =>
      unfold Windows.on_drag at hs'
      rw [hview] at hs'
      try dsimp only at hs'
      rw [hfl] at hs'
      try dsimp only at hs'
      rw [Option.some_inj] at hs'
      subst hs'
      exact ⟨_, rfl, hdir⟩
  · intro hview s' hs'
    unfold Windows.on_drag_release at hs'
    rw [hview] at hs'
    try dsimp only at hs'
    cases hfp : o.floating_position with
    | some fp =>
      rw [hfp, if_pos (show (some fp).isSome = true from rfl)] at hs'
      split at hs'
      · simp only [Option.bind_eq_bind, Option.bind_eq_some, Option.pure_def,
          Option.some_inj] at hs'
        obtain ⟨idx, hidx, s1, hs1, hs'⟩ := hs'
        subst hs'
        have h1 : s1.view = s.view := (set_primary_shell hs1).1
        have h2 : (s1.toggle_view now).view = s1.view := (toggle_view_shell s1 now).1
        rw [h2, h1, hview]
        exact ⟨o, rfl, rfl⟩
      · split at hs'
        · simp only [Option.bind_eq_bind, Option.bind_eq_some, Option.pure_def,
            Option.some_inj] at hs'
          obtain ⟨idx, hidx, s1, hs1, hs'⟩ := hs'
          subst hs'
          have h1 : s1.view = s.view := (set_secondary_shell hs1).1
          have h2 : (s1.toggle_view now).view = s1.view := (toggle_view_shell s1 now).1
          rw [h2, h1, hview]
          exact ⟨o, rfl, rfl⟩
        · rw [Option.some_inj] at hs'
          subst hs'
          exact ⟨_, rfl, rfl⟩
    | none =>
      rw [hfp, if_neg (by simp)] at hs'
      rw [Option.some_inj] at hs'
      subst hs'
      exact ⟨_, rfl, rfl⟩

/-- Witness for C8 at concrete inputs: the latched horizontal axis of
`stateC8` survives `on_drag_release`. -/
theorem drag_axis_latching_witness :
    stateC8.view = .overview ovC8 ∧
    ∃ o', stateC8r.view = .overview o' ∧ o'.drag_direction = ovC8.drag_direction := by
  refine ⟨rfl, ?_⟩
  refine (drag_axis_latching stateC8 outTall ⟨0, 0⟩ 7 ovC8).2.2 rfl stateC8r ?_
  norm_num [Windows.on_drag_release, stateC8, stateC8r, ovC8, outTall]

/-! ## Claim C7 -/

/-- C7: during a vertically-latched overview drag with a non-empty window
list and no close-release cooldown, a move whose accumulated `|y_offset|`
reaches `output_height * OVERVIEW_CLOSE_DISTANCE` sends the focused window
a close request, removes it from the registry immediately (the window
list itself shrinks — no transaction is involved), resets `y_offset`,
starts the bounce-back animation and enters the cooldown; a move that
stays below the threshold leaves the window list untouched and does not
enter the cooldown. -/
theorem on_drag_vertical_close (s : Windows) (out : Output) (p : QPoint) (now : ℚ)
    (o : Overview)
    (hview : s.view = .overview o)
    (hfl : o.floating_position = none)
    (hdir : o.drag_direction = some .vertical)
    (hpend : o.close_release_pending = false)
    (hne : s.windows ≠ []) :
    (∀ idx w, Overview.focused_index o s.windows.length = some idx →
      s.windows.get? idx = some w →
      (out.size.h : ℚ) * OVERVIEW_CLOSE_DISTANCE ≤ |o.y_offset + (p.y - o.last_drag_point.y)| →
      ∃ s', s.on_drag out p now = some s' ∧
        s'.windows.map (fun w' => w'.id) = (s.windows.eraseIdx idx).map (fun w' => w'.id) ∧
        s'.closeRequests = s.closeRequests ++ [w.id] ∧
        ∃ o', s'.view = .overview o' ∧ o'.y_offset = 0 ∧
          o'.close_release_pending = true ∧ o'.last_overdrag_step = some now)
    ∧ (|o.y_offset + (p.y - o.last_drag_point.y)| < (out.size.h : ℚ) * OVERVIEW_CLOSE_DISTANCE →
      s.on_drag out p now = some { s with view := View.overview { o with last_drag_point := p, drag_direction := some .vertical, last_overdrag_step := none, hold_start := none, y_offset := o.y_offset + (p.y - o.last_drag_point.y) } }) := by
  constructor
  · intro idx w hidx hw hthr
    simp only [Windows.on_drag, hview, hfl, hdir, Option.getD_some]
    rw [if_neg (by simp [hpend]), if_pos ⟨hthr, hne⟩]
    have hidx' : Overview.focused_index
        ⟨o.x_offset, o.y_offset + (p.y - o.last_drag_point.y), none, p, none,
         some Direction.vertical, o.close_release_pending, none⟩
        s.windows.length = some idx := hidx
    rw [hidx']
    simp only [Option.bind_eq_bind, Option.some_bind]
    rw [hw]
    simp only [Option.some_bind, Option.pure_def]
    refine ⟨_, rfl, ?_, ?_, ?_⟩
    · rw [(refresh_visible_shell _ out now).2.2.2.2]
    · rw [(refresh_visible_shell _ out now).2.2.2.1]
    · rw [(refresh_visible_shell _ out now).1]
      exact ⟨_, rfl, rfl, rfl, rfl⟩
  · intro hthr
    simp only [Windows.on_drag, hview, hfl, hdir, Option.getD_some]
    rw [if_neg (by simp [hpend]), if_neg (fun hc => absurd hc.1 (not_le.2 hthr))]

/-- Witness for C7: in `stateC7` (one window, `y_offset = 99` on a 200-high
output) a drag of one more unit reaches the threshold and closes the
focused window. -/
theorem on_drag_vertical_close_witness :
    ∃ s', stateC7.on_drag outTall ⟨0, 1⟩ 5 = some s' ∧
      s'.windows.map (fun w' => w'.id) = (stateC7.windows.eraseIdx 0).map (fun w' => w'.id) ∧
      s'.closeRequests = stateC7.closeRequests ++ [winC7.id] ∧
      ∃ o', s'.view = .overview o' ∧ o'.y_offset = 0 ∧
        o'.close_release_pending = true ∧ o'.last_overdrag_step = some 5 := by
  refine (on_drag_vertical_close stateC7 outTall ⟨0, 1⟩ 5 ovC7 rfl rfl rfl rfl
    (by simp [stateC7])).1 0 winC7 ?_ rfl ?_
  · norm_num [Overview.focused_index, ovC7, roundAway, stateC7]
  · norm_num [ovC7, outTall, OVERVIEW_CLOSE_DISTANCE, stateC7]

/-! ## Claim C9 -/

theorem Overview.default_eq :
    (default : Overview) = ⟨0, 0, none, ⟨0, 0⟩, none, none, false, none⟩ := rfl

theorem set_primary_some_of_get {s : Windows} {out : Output} {i : Nat} {now : ℚ}
    {w : Window} (hw : s.windows.get? i = some w) :
    ∃ s2, s.set_primary out (some i) now = some s2 := by
  unfold Windows.set_primary
  cases htx : s.transaction <;>
    simp only [Windows.start_transaction, htx, hw, Option.map_some'] <;>
  · split
    · exact ⟨_, rfl⟩
    · exact ⟨_, rfl⟩

theorem set_secondary_none_isSome (s : Windows) (out : Output) (now : ℚ) :
    ∃ s3, s.set_secondary out none now = some s3 := by
  unfold Windows.set_secondary
  cases htx : s.transaction <;>
    simp only [Windows.start_transaction, htx] <;>
    exact ⟨_, rfl⟩

/-- C9: a tap in the overview that lands inside the focused window's
bounds stages that window as the transaction's primary, clears the staged
secondary unless the live primary slot was previously empty, and stages a
view change back to `Workspace`; a tap outside the bounds changes neither
the live nor the staged primary/secondary/view (only the hold timer is
cleared). -/
theorem on_tap_staging (s : Windows) (out : Output) (p : QPoint) (now : ℚ) (o : Overview)
    (hview : s.view = .overview o)
    (b : IRect) (hb : o.focused_bounds out.size s.windows.length = some b) :
    (b.contains p.to_i32_round = true →
      ∀ idx w, Overview.focused_index o s.windows.length = some idx →
        s.windows.get? idx = some w →
        ∃ s', s.on_tap out p now = some s' ∧
          ∃ t', s'.transaction = some t' ∧
            t'.primary = some w.id ∧
            (0 < s.strongCount s.primary → t'.secondary = none) ∧
            t'.view = some View.workspace)
    ∧ (b.contains p.to_i32_round = false →
        s.on_tap out p now =
          some { s with view := View.overview { o with hold_start := none } }) := by
  constructor
  · intro hc idx w hidx hw
    simp only [Windows.on_tap, hview]
    set o1 : Overview := ⟨o.x_offset, o.y_offset, o.floating_position, o.last_drag_point,
      o.last_overdrag_step, o.drag_direction, o.close_release_pending, none⟩ with ho1
    rw [show Overview.focused_bounds o1 out.size s.windows.length = some b from hb]
    try dsimp only
    rw [if_pos hc]
    rw [show Overview.focused_index o1 s.windows.length = some idx from hidx]
    simp only [Option.bind_eq_bind, Option.some_bind]
    set S1 : Windows := { s with view := View.overview o1 } with hS1
    obtain ⟨s2, hs2⟩ := @set_primary_some_of_get S1 out idx now w
      (show S1.windows.get? idx = some w from hw)
    rw [hs2]
    simp only [Option.some_bind]
    obtain ⟨t2, ht2, ht2p⟩ := set_primary_some_tx (show S1.windows.get? idx = some w from hw) hs2
    have hshell := set_primary_shell hs2
    have hprim : s2.primary = s.primary := hshell.2.1
    have hids : s2.windows.map (fun w' => w'.id) = s.windows.map (fun w' => w'.id) :=
      hshell.2.2.2.2
    have hsc2 : s2.strongCount s2.primary = s.strongCount s.primary := by
      rw [hprim]
      exact strongCount_congr _ hids
    have hv2 : s2.view = View.overview o1 := hshell.1
    by_cases hsc : 0 < s.strongCount s.primary
    · rw [if_pos (by rw [hsc2]; exact hsc)]
      obtain ⟨s3, hs3⟩ := set_secondary_none_isSome s2 out now
      rw [hs3]
      simp only [Option.some_bind, Option.pure_def, Option.some_inj]
      have ht3 : s3.transaction = some { t2 with secondary := none } :=
        set_secondary_none_tx ht2 hs3
      have htv := @toggle_view_tx s3 now { t2 with secondary := none } ht3
      have hv3 : s3.view = View.overview o1 := ((set_secondary_shell hs3).1).trans hv2
      rw [hv3] at htv
      refine ⟨_, rfl, _, htv, ht2p, fun _ => rfl, rfl⟩
    · rw [if_neg (by rw [hsc2]; exact hsc)]
      simp only [Option.pure_def, Option.some_bind, Option.some_inj]
      have htv := @toggle_view_tx s2 now t2 ht2
      rw [hv2] at htv
      refine ⟨_, rfl, _, htv, ht2p, fun hcon => absurd hcon hsc, rfl⟩
  · intro hc
    simp only [Windows.on_tap, hview]
    set o1 : Overview := ⟨o.x_offset, o.y_offset, o.floating_position, o.last_drag_point,
      o.last_overdrag_step, o.drag_direction, o.close_release_pending, none⟩ with ho1
    rw [show Overview.focused_bounds o1 out.size s.windows.length = some b from hb]
    try dsimp only
    rw [if_neg (by simp [hc])]

/-- Witness for C9: tapping `(50, 50)` inside the focused bounds
`(13, 12, 75, 75)` of `stateC9` (one window that is also the live
primary). -/
theorem on_tap_staging_witness :
    ∃ s', stateC9.on_tap outSquare ⟨50, 50⟩ 3 = some s' ∧
      ∃ t', s'.transaction = some t' ∧
        t'.primary = some winC9.id ∧
        (0 < stateC9.strongCount stateC9.primary → t'.secondary = none) ∧
        t'.view = some View.workspace := by
  refine (on_tap_staging stateC9 outSquare ⟨50, 50⟩ 3 default rfl ⟨13, 12, 75, 75⟩ ?_).1
    ?_ 0 winC9 ?_ rfl
  · norm_num [Overview.focused_bounds, Overview.focused_index, Overview.default_eq,
      ISize.scale, truncQ, overview_x_position, powfQ, roundAway, Int.toNat,
      FG_OVERVIEW_PERCENTAGE, BG_OVERVIEW_PERCENTAGE, outSquare, stateC9, Int.tdiv]
  · norm_num [IRect.contains, QPoint.to_i32_round, roundAway]
  · norm_num [Overview.focused_index, Overview.default_eq, roundAway, stateC9]

/-! ## Claim C10 -/

/-- C10: for a non-empty window list `focused_index` always returns an
index strictly below the window count (`0` whenever the X offset is
non-negative); for an empty list the `usize` subtraction
`window_count - 1` underflows — a panic, modelled as `none` — and every
overview entry point that reaches it with an empty list propagates the
panic instead of returning: `on_touch_start` and `on_tap` (via
`focused_bounds`) and `on_drag_release` with a floating window dropped in
the top or bottom third. -/
theorem focused_index_safety :
    (∀ (o : Overview) (n : Nat), 1 ≤ n →
      ∃ i, o.focused_index n = some i ∧ i < n ∧ (0 ≤ o.x_offset → i = 0))
    ∧ (∀ o : Overview, o.focused_index 0 = none)
    ∧ (∀ (s : Windows) (out : Output) (p : QPoint) (now : ℚ) (o : Overview),
        s.view = .overview o → s.windows = [] → s.on_touch_start out p now = none)
    ∧ (∀ (s : Windows) (out : Output) (p : QPoint) (now : ℚ) (o : Overview),
        s.view = .overview o → s.windows = [] → s.on_tap out p now = none)
    ∧ (∀ (s : Windows) (out : Output) (now : ℚ) (o : Overview),
        s.view = .overview o → o.floating_position.isSome = true → s.windows = [] →
        (o.last_drag_point.y < (out.size.h : ℚ) / 3 ∨
          o.last_drag_point.y ≥ (out.size.h : ℚ) / (3/2)) →
        s.on_drag_release out now = none) := by
  have hidx0 : ∀ o : Overview, o.focused_index 0 = none := by
    intro o
    simp [Overview.focused_index]
  refine ⟨?_, hidx0, ?_, ?_, ?_⟩
  · intro o n hn
    refine ⟨min (roundAway |min o.x_offset 0|).toNat (n - 1), ?_, ?_, ?_⟩
    · have hne : ¬ n = 0 := by omega
      simp [Overview.focused_index, hne]
    · omega
    · intro hx
      have h0 : min o.x_offset 0 = 0 := min_eq_right hx
      rw [h0]
      simp [roundAway]
      norm_num
  · intro s out p now o hview hwin
    simp only [Windows.on_touch_start, hview, hwin, List.length_nil]
    rw [show Overview.focused_bounds o out.size 0 = none by
      simp [Overview.focused_bounds, hidx0 o]]
  · intro s out p now o hview hwin
    simp only [Windows.on_tap, hview, hwin, List.length_nil]
    rw [show Overview.focused_bounds
        (⟨o.x_offset, o.y_offset, o.floating_position, o.last_drag_point,
          o.last_overdrag_step, o.drag_direction, o.close_release_pending, none⟩ : Overview)
        out.size 0 = none by
      simp [Overview.focused_bounds, hidx0]]
  · intro s out now o hview hfl hwin hdisj
    simp only [Windows.on_drag_release, hview, hfl, if_true, hwin, List.length_nil]
    have hnone : ∀ f : Nat → Option Windows, (Option.bind (o.focused_index 0) f) = none := by
      intro f
      rw [hidx0 o]
      rfl
    rcases hdisj with hl | hr
    · rw [if_pos hl]
      simp only [Option.bind_eq_bind, hidx0 o, Option.none_bind]
    · by_cases hy : o.last_drag_point.y < (out.size.h : ℚ) / 3
      · rw [if_pos hy]
        simp only [Option.bind_eq_bind, hidx0 o, Option.none_bind]
      · rw [if_neg hy, if_pos hr]
        simp only [Option.bind_eq_bind, hidx0 o, Option.none_bind]

/-- Witness for C10 at concrete inputs: a three-window overview gives
index `0`; the empty-list registries panic in all three entry points. -/
theorem focused_index_safety_witness :
    (∃ i, (default : Overview).focused_index 3 = some i ∧ i < 3 ∧
      (0 ≤ (default : Overview).x_offset → i = 0)) ∧
    stateC10.on_touch_start outTall ⟨1, 2⟩ 0 = none ∧
    stateC10.on_tap outTall ⟨1, 2⟩ 0 = none ∧
    stateC10f.on_drag_release outTall 0 = none := by
  refine ⟨focused_index_safety.1 default 3 (by norm_num), ?_, ?_, ?_⟩
  · exact focused_index_safety.2.2.1 stateC10 outTall ⟨1, 2⟩ 0 default rfl rfl
  · exact focused_index_safety.2.2.2.1 stateC10 outTall ⟨1, 2⟩ 0 default rfl rfl
  · refine focused_index_safety.2.2.2.2 stateC10f outTall 0
      ⟨0, 0, some ⟨0, 0⟩, ⟨0, 10⟩, none, none, false, none⟩ rfl rfl rfl (Or.inl ?_)
    norm_num [outTall]

/-! ## Claim C2: commit-loop lemmas -/

theorem setSelf {α : Type _} (l : List α) (n : Nat) (a : α) (h : l.get? n = some a) :
    l.set n a = l := by
  apply List.ext_getElem?
  intro k
  rw [List.getElem?_set]
  split
  · rename_i hnk
    subst hnk
    rw [List.get?_eq_getElem?] at h
    rw [if_pos (List.getElem?_eq_some.1 h).1]
    exact h.symm
  · rfl

theorem listSwap_length {α : Type _} (l : List α) (i j : Nat) :
    (listSwap l i j).length = l.length := by
  unfold listSwap
  split
  · simp
  · rfl

theorem listSwap_get? {α : Type _} (l : List α) {i j : Nat} {a b : α}
    (hi : l.get? i = some a) (hj : l.get? j = some b) (k : Nat) :
    (listSwap l i j).get? k =
      if k = j then l.get? i else if k = i then l.get? j else l.get? k := by
  have hilen : i < l.length := by
    rw [List.get?_eq_getElem?] at hi
    exact (List.getElem?_eq_some.1 hi).1
  have hjlen : j < l.length := by
    rw [List.get?_eq_getElem?] at hj
    exact (List.getElem?_eq_some.1 hj).1
  unfold listSwap
  rw [hi, hj]
  simp only [List.get?_eq_getElem?] at hi hj ⊢
  rw [List.getElem?_set, List.getElem?_set]
  by_cases h1 : j = k
  · rw [if_pos h1, List.length_set, if_pos hjlen, if_pos h1.symm]
  · rw [if_neg h1, if_neg (show ¬ k = j from fun hh => h1 hh.symm)]
    by_cases h2 : i = k
    · rw [if_pos h2, if_pos hilen, if_pos h2.symm]
    · rw [if_neg h2, if_neg (show ¬ k = i from fun hh => h2 hh.symm)]

theorem listSwap_map {α β : Type _} (f : α → β) (l : List α) (i j : Nat) :
    (listSwap l i j).map f = listSwap (l.map f) i j := by
  unfold listSwap
  cases hgi : l.get? i with
  | none =>
    have : (l.map f).get? i = none := by
      simp only [List.get?_eq_getElem?] at hgi ⊢
      rw [List.getElem?_map, hgi]
      rfl
    rw [this]
  | some a =>
    cases hgj : l.get? j with
    | none =>
      have : (l.map f).get? j = none := by
        simp only [List.get?_eq_getElem?] at hgj ⊢
        rw [List.getElem?_map, hgj]
        rfl
      have hfi : (l.map f).get? i = some (f a) := by
        simp only [List.get?_eq_getElem?] at hgi ⊢
        rw [List.getElem?_map, hgi]
        rfl
      rw [this, hfi]
    | some b =>
      have hfi : (l.map f).get? i = some (f a) := by
        simp only [List.get?_eq_getElem?] at hgi ⊢
        rw [List.getElem?_map, hgi]
        rfl
      have hfj : (l.map f).get? j = some (f b) := by
        simp only [List.get?_eq_getElem?] at hgj ⊢
        rw [List.getElem?_map, hgj]
        rfl
      rw [hfi, hfj]
      simp [List.map_set]

theorem apply_transaction_id (w : Window) : w.apply_transaction.id = w.id := by
  unfold Window.apply_transaction
  split <;> rfl

theorem apply_transaction_alive (w : Window) : w.apply_transaction.alive = w.alive := by
  unfold Window.apply_transaction
  split <;> rfl

theorem apply_transaction_none (w : Window) : w.apply_transaction.transaction = none := by
  unfold Window.apply_transaction
  split
  · rename_i heq
    exact heq
  · rfl

theorem nodup_distinctAt (ids : List Nat) (h : ids.Nodup) : distinctAt ids := by
  intro j k x hj hk
  rw [List.get?_eq_getElem?] at hj hk
  have hjlen : j < ids.length := (List.getElem?_eq_some.1 hj).1
  refine List.getElem?_inj hjlen h ?_
  rw [hj, hk]

theorem distinctAt_swap {ids : List Nat} {a b : Nat} {x y : Nat}
    (ha : ids.get? a = some x) (hb : ids.get? b = some y)
    (h : distinctAt ids) : distinctAt (listSwap ids a b) := by
  intro j k v hj hk
  rw [listSwap_get? ids ha hb] at hj hk
  have hj' : ids.get? (if j = b then a else if j = a then b else j) = some v := by
    split_ifs at hj ⊢ <;> assumption
  have hk' : ids.get? (if k = b then a else if k = a then b else k) = some v := by
    split_ifs at hk ⊢ <;> assumption
  have heq := h _ _ v hj' hk'
  split_ifs at heq <;> omega

theorem distinctAt_erase {ids : List Nat} (n : Nat) (h : distinctAt ids) :
    distinctAt (ids.eraseIdx n) := by
  intro j k v hj hk
  rw [List.get?_eq_getElem?, List.getElem?_eraseIdx] at hj hk
  split at hj <;> split at hk <;>
  · rw [← List.get?_eq_getElem?] at hj hk
    have := h _ _ v hj hk
    omega

theorem distinctAt_set_same {ids : List Nat} {n x : Nat} (hn : ids.get? n = some x)
    (h : distinctAt ids) : distinctAt (ids.set n x) := by
  rw [setSelf ids n x hn]
  exact h

theorem any_drop_of_get? {ids : List Nat} {P : Nat → Bool} {k j : Nat} {x : Nat}
    (hk : k ≤ j) (hj : ids.get? j = some x) (hP : P x = true) :
    (ids.drop k).any P = true := by
  rw [List.any_eq_true]
  refine ⟨x, ?_, hP⟩
  rw [List.mem_iff_get?]
  refine ⟨j - k, ?_⟩
  rw [List.get?_eq_getElem?, List.getElem?_drop, show k + (j - k) = j by omega,
    ← List.get?_eq_getElem?]
  exact hj

theorem get?_of_any_drop {ids : List Nat} {P : Nat → Bool} {k : Nat}
    (h : (ids.drop k).any P = true) :
    ∃ j x, k ≤ j ∧ ids.get? j = some x ∧ P x = true := by
  rw [List.any_eq_true] at h
  obtain ⟨x, hmem, hP⟩ := h
  rw [List.mem_iff_get?] at hmem
  obtain ⟨m, hm⟩ := hmem
  rw [List.get?_eq_getElem?, List.getElem?_drop] at hm
  exact ⟨k + m, x, by omega, by rw [List.get?_eq_getElem?]; exact hm, hP⟩

theorem any_drop_erase {ids : List Nat} {P : Nat → Bool} {k n : Nat}
    (h : ((ids.eraseIdx n).drop k).any P = true) : (ids.drop k).any P = true := by
  obtain ⟨j, x, hk, hj, hP⟩ := get?_of_any_drop h
  rw [List.get?_eq_getElem?, List.getElem?_eraseIdx] at hj
  split at hj
  · exact any_drop_of_get? hk (by rw [List.get?_eq_getElem?]; exact hj) hP
  · exact any_drop_of_get? (by omega : k ≤ j + 1)
      (by rw [List.get?_eq_getElem?]; exact hj) hP

theorem primaryPending_erase (txP : Option Nat) (ids : List Nat) (n : Nat) :
    primaryPending txP (ids.eraseIdx n) ≤ primaryPending txP ids := by
  unfold primaryPending
  by_cases h : ((ids.eraseIdx n).drop 1).any (fun m => txP == some m) = true
  · rw [if_pos h, if_pos (any_drop_erase h)]
  · rw [if_neg h]
    split <;> omega

theorem secondaryPending_erase (txS : Option Nat) (ids : List Nat) (n : Nat) :
    secondaryPending txS (ids.eraseIdx n) ≤ secondaryPending txS ids := by
  unfold secondaryPending
  by_cases h : ((ids.eraseIdx n).drop 2).any (fun m => txS == some m) = true
  · rw [if_pos h, if_pos (any_drop_erase h)]
  · rw [if_neg h]
    split <;> omega

theorem primaryPending_le (txP : Option Nat) (ids : List Nat) :
    primaryPending txP ids ≤ 2 := by
  unfold primaryPending
  split <;> omega

theorem secondaryPending_le (txS : Option Nat) (ids : List Nat) :
    secondaryPending txS ids ≤ 1 := by
  unfold secondaryPending
  split <;> omega

theorem get?_some_of_lt {α : Type _} {l : List α} {n : Nat} (h : n < l.length) :
    ∃ a, l.get? n = some a := by
  rw [List.get?_eq_getElem?]
  exact ⟨l[n], List.getElem?_eq_getElem h⟩

theorem map_get?_eq {l : List Window} {j : Nat} {w : Window}
    (h : l.get? j = some w) : (l.map Window.id).get? j = some w.id := by
  simp only [List.get?_eq_getElem?] at h ⊢
  rw [List.getElem?_map, h]
  rfl

theorem map_eraseIdx' {α β : Type _} (f : α → β) (l : List α) (n : Nat) :
    (l.eraseIdx n).map f = (l.map f).eraseIdx n := by
  apply List.ext_getElem?
  intro k
  rw [List.getElem?_map, List.getElem?_eraseIdx, List.getElem?_eraseIdx]
  split <;> rw [List.getElem?_map]

theorem hasLiveId_set_apply {ws : List Window} {m : Nat} {w : Window}
    (hm : ws.get? m = some w) (p : Nat) (h : hasLiveId p ws) :
    hasLiveId p (ws.set m w.apply_transaction) := by
  obtain ⟨j, w', hj, hid, hal⟩ := h
  have hmlt : m < ws.length := by
    rw [List.get?_eq_getElem?] at hm
    exact (List.getElem?_eq_some.1 hm).1
  by_cases hcase : j = m
  · subst hcase
    rw [hj] at hm
    have hww : w' = w := Option.some.inj hm
    refine ⟨j, w.apply_transaction, ?_, ?_, ?_⟩
    · simp only [List.get?_eq_getElem?]
      rw [List.getElem?_set, if_pos rfl, if_pos hmlt]
    · rw [apply_transaction_id, ← hww]
      exact hid
    · rw [apply_transaction_alive, ← hww]
      exact hal
  · refine ⟨j, w', ?_, hid, hal⟩
    simp only [List.get?_eq_getElem?] at hj ⊢
    rw [List.getElem?_set, if_neg (fun hh => hcase hh.symm)]
    exact hj

theorem hasLiveId_swap {ws : List Window} {a b : Nat} {wa wb : Window}
    (ha : ws.get? a = some wa) (hb : ws.get? b = some wb) (p : Nat)
    (h : hasLiveId p ws) : hasLiveId p (listSwap ws a b) := by
  obtain ⟨j, w', hj, hid, hal⟩ := h
  by_cases h1 : j = a
  · refine ⟨b, w', ?_, hid, hal⟩
    rw [listSwap_get? ws ha hb, if_pos rfl, ← h1, hj]
  · by_cases h2 : j = b
    · have h3 : ¬ a = b := fun hab => h1 (h2.trans hab.symm)
      refine ⟨a, w', ?_, hid, hal⟩
      rw [listSwap_get? ws ha hb, if_neg h3, if_pos rfl, ← h2, hj]
    · refine ⟨j, w', ?_, hid, hal⟩
      rw [listSwap_get? ws ha hb, if_neg h2, if_neg h1]
      exact hj

theorem hasLiveId_erase_dead {ws : List Window} {m : Nat} {w : Window}
    (hm : ws.get? m = some w) (hdead : ¬ w.alive = true) (p : Nat)
    (h : hasLiveId p ws) : hasLiveId p (ws.eraseIdx m) := by
  obtain ⟨j, w', hj, hid, hal⟩ := h
  have hjm : ¬ j = m := by
    intro he
    subst he
    rw [hm] at hj
    have hww : w = w' := Option.some.inj hj
    rw [hww] at hdead
    exact hdead hal
  by_cases hlt : j < m
  · refine ⟨j, w', ?_, hid, hal⟩
    rw [List.get?_eq_getElem?, List.getElem?_eraseIdx, if_pos hlt,
      ← List.get?_eq_getElem?]
    exact hj
  · refine ⟨j - 1, w', ?_, hid, hal⟩
    rw [List.get?_eq_getElem?, List.getElem?_eraseIdx, if_neg (by omega),
      show j - 1 + 1 = j by omega, ← List.get?_eq_getElem?]
    exact hj

theorem primaryPending_eq_two {txP : Option Nat} {ids : List Nat} {m x : Nat}
    (hm : ids.get? m = some x) (hx : txP = some x) (h1 : 1 ≤ m) :
    primaryPending txP ids = 2 := by
  unfold primaryPending
  rw [if_pos (any_drop_of_get? h1 hm (by rw [hx]; simp))]

theorem secondaryPending_eq_one {txS : Option Nat} {ids : List Nat} {m x : Nat}
    (hm : ids.get? m = some x) (hx : txS = some x) (h2 : 2 ≤ m) :
    secondaryPending txS ids = 1 := by
  unfold secondaryPending
  rw [if_pos (any_drop_of_get? h2 hm (by rw [hx]; simp))]

theorem primaryPending_swap_zero {txP : Option Nat} {ids : List Nat} {m x y : Nat}
    (hd : distinctAt ids) (hm : ids.get? m = some x) (hx : txP = some x)
    (h0 : ids.get? 0 = some y) (h1 : 1 ≤ m) :
    primaryPending txP (listSwap ids 0 m) = 0 := by
  unfold primaryPending
  rw [if_neg]
  intro hany
  obtain ⟨j, z, hj1, hjz, hPz⟩ := get?_of_any_drop hany
  rw [hx, beq_iff_eq] at hPz
  have hz : z = x := (Option.some.inj hPz).symm
  subst hz
  rw [listSwap_get? ids h0 hm] at hjz
  by_cases hA : j = m
  · rw [if_pos hA] at hjz
    have := hd 0 m z hjz hm
    omega
  · rw [if_neg hA] at hjz
    rw [if_neg (by omega : ¬ j = 0)] at hjz
    have := hd j m z hjz hm
    omega

theorem secondaryPending_swap_zero {txS : Option Nat} {ids : List Nat} {m x y : Nat}
    (hd : distinctAt ids) (hm : ids.get? m = some x) (hx : txS = some x)
    (h1 : ids.get? 1 = some y) (h2 : 2 ≤ m) :
    secondaryPending txS (listSwap ids 1 m) = 0 := by
  unfold secondaryPending
  rw [if_neg]
  intro hany
  obtain ⟨j, z, hj2, hjz, hPz⟩ := get?_of_any_drop hany
  rw [hx, beq_iff_eq] at hPz
  have hz : z = x := (Option.some.inj hPz).symm
  subst hz
  rw [listSwap_get? ids h1 hm] at hjz
  by_cases hA : j = m
  · rw [if_pos hA] at hjz
    have := hd 1 m z hjz hm
    omega
  · rw [if_neg hA] at hjz
    rw [if_neg (by omega : ¬ j = 1)] at hjz
    have := hd j m z hjz hm
    omega

theorem primaryPending_swap_le {txP : Option Nat} {ids : List Nat} {a b xa xb : Nat}
    (ha : ids.get? a = some xa) (hb : ids.get? b = some xb)
    (h1a : 1 ≤ a) (h1b : 1 ≤ b) :
    primaryPending txP (listSwap ids a b) ≤ primaryPending txP ids := by
  unfold primaryPending
  by_cases hany : ((listSwap ids a b).drop 1).any (fun n => txP == some n) = true
  · rw [if_pos hany]
    obtain ⟨j, z, hj1, hjz, hPz⟩ := get?_of_any_drop hany
    rw [listSwap_get? ids ha hb] at hjz
    by_cases hA : j = b
    · rw [if_pos hA] at hjz
      rw [if_pos (any_drop_of_get? h1a hjz hPz)]
    · rw [if_neg hA] at hjz
      by_cases hB : j = a
      · rw [if_pos hB] at hjz
        rw [if_pos (any_drop_of_get? h1b hjz hPz)]
      · rw [if_neg hB] at hjz
        rw [if_pos (any_drop_of_get? hj1 hjz hPz)]
  · rw [if_neg hany]
    split <;> omega

theorem map_id_set_apply {ws : List Window} {m : Nat} {w : Window}
    (hm : ws.get? m = some w) :
    (ws.set m w.apply_transaction).map Window.id = ws.map Window.id := by
  rw [List.map_set]
  exact setSelf _ m _ (by rw [apply_transaction_id]; exact map_get?_eq hm)

theorem strongCount_le_one {s : Windows} (h : (s.windows.map Window.id).Nodup)
    (p : Option Nat) : s.strongCount p ≤ 1 := by
  unfold Windows.strongCount
  cases p with
  | none => exact Nat.zero_le 1
  | some i =>
    show s.windows.countP (fun w => w.id == i) ≤ 1
    have hcount : s.windows.countP (fun w => w.id == i) =
        (s.windows.map Window.id).count i := by
      rw [List.count, List.countP_map]
      rfl
    rw [hcount]
    exact List.nodup_iff_count_le_one.1 h i

theorem commitLoopAux_inv (txP txS : Option Nat) :
    ∀ fuel i ws, i ≤ ws.length →
      i + primaryPending txP (ws.map Window.id) +
        secondaryPending txS (ws.map Window.id) ≤ fuel →
      distinctAt (ws.map Window.id) →
      commitInv txP txS i ws →
      commitInv txP txS 0 (commitLoopAux txP txS 1 fuel i ws) ∧
        ∀ p, hasLiveId p ws → hasLiveId p (commitLoopAux txP txS 1 fuel i ws) := by
  intro fuel
  induction fuel with
  | zero =>
    intro i ws hlen hfuel hd hinv
    have hi0 : i = 0 := by omega
    subst hi0
    exact ⟨hinv, fun _ hp => hp⟩
  | succ f IH =>
    intro i ws hlen hfuel hd hinv
    cases i with
    | zero => exact ⟨hinv, fun _ hp => hp⟩
    | succ m =>
      have hmlt : m < ws.length := by omega
      cases hw : ws.get? m with
      | none =>
        rw [List.get?_eq_getElem?, List.getElem?_eq_getElem hmlt] at hw
        simp at hw
      | some w =>
        by_cases halive : w.alive = true
        · -- live window: apply the per-window transaction, maybe swap
          have hws1id : (ws.set m w.apply_transaction).map Window.id =
              ws.map Window.id := map_id_set_apply hw
          have hws1len : (ws.set m w.apply_transaction).length = ws.length :=
            List.length_set ws m w.apply_transaction
          have hws1get : ∀ j, ¬ j = m →
              (ws.set m w.apply_transaction).get? j = ws.get? j := by
            intro j hj
            simp only [List.get?_eq_getElem?]
            rw [List.getElem?_set, if_neg (fun hh => hj hh.symm)]
          have hws1m : (ws.set m w.apply_transaction).get? m =
              some w.apply_transaction := by
            simp only [List.get?_eq_getElem?]
            rw [List.getElem?_set, if_pos rfl, if_pos hmlt]
          have hidm : (ws.map Window.id).get? m = some w.id := map_get?_eq hw
          by_cases hpb : 0 < m ∧ txP = some w.id
          · -- primary swap to index 0, re-examine index m
            have heq : commitLoopAux txP txS 1 (f + 1) (m + 1) ws =
                commitLoopAux txP txS 1 f (m + 1)
                  (listSwap (ws.set m w.apply_transaction) 0 m) := by
              simp only [commitLoopAux, hw]
              rw [if_neg (fun hc => hc halive), if_pos hpb]
            rw [heq]
            obtain ⟨w0, hw0⟩ :=
              @get?_some_of_lt Window (ws.set m w.apply_transaction) 0
                (by rw [hws1len]; omega)
            obtain ⟨y, hy⟩ := @get?_some_of_lt Nat (ws.map Window.id) 0
              (by rw [List.length_map]; omega)
            have hids' : (listSwap (ws.set m w.apply_transaction) 0 m).map Window.id =
                listSwap (ws.map Window.id) 0 m := by
              rw [listSwap_map, hws1id]
            have hlen'' : m + 1 ≤ (listSwap (ws.set m w.apply_transaction) 0 m).length := by
              rw [listSwap_length, hws1len]
              omega
            have hpP : primaryPending txP (ws.map Window.id) = 2 :=
              primaryPending_eq_two hidm hpb.2 (by omega)
            have hpP' : primaryPending txP (listSwap (ws.map Window.id) 0 m) = 0 :=
              primaryPending_swap_zero hd hidm hpb.2 hy (by omega)
            have hsP' := secondaryPending_le txS (listSwap (ws.map Window.id) 0 m)
            have hfuel'' : m + 1 +
                primaryPending txP ((listSwap (ws.set m w.apply_transaction) 0 m).map Window.id) +
                secondaryPending txS ((listSwap (ws.set m w.apply_transaction) 0 m).map Window.id) ≤
                f := by
              rw [hids']
              omega
            have hd'' : distinctAt ((listSwap (ws.set m w.apply_transaction) 0 m).map Window.id) := by
              rw [hids']
              exact distinctAt_swap hy hidm hd
            have hinv'' : commitInv txP txS (m + 1)
                (listSwap (ws.set m w.apply_transaction) 0 m) := by
              intro j hj w' hw'
              rw [listSwap_get? _ hw0 hws1m, if_neg (by omega : ¬ j = m),
                if_neg (by omega : ¬ j = 0), hws1get j (by omega)] at hw'
              exact hinv j (by omega) w' hw'
            obtain ⟨hinvR, hpresR⟩ := IH (m + 1) _ hlen'' hfuel'' hd'' hinv''
            exact ⟨hinvR, fun p hp =>
              hpresR p (hasLiveId_swap hw0 hws1m p (hasLiveId_set_apply hw p hp))⟩
          · by_cases hsb : 1 < m ∧ txS = some w.id
            · -- secondary swap to index 1, re-examine index m
              have heq : commitLoopAux txP txS 1 (f + 1) (m + 1) ws =
                  commitLoopAux txP txS 1 f (m + 1)
                    (listSwap (ws.set m w.apply_transaction) 1 m) := by
                simp only [commitLoopAux, hw]
                rw [if_neg (fun hc => hc halive), if_neg hpb, if_pos hsb]
              rw [heq]
              obtain ⟨w1, hw1⟩ :=
                @get?_some_of_lt Window (ws.set m w.apply_transaction) 1
                  (by rw [hws1len]; omega)
              obtain ⟨y, hy⟩ := @get?_some_of_lt Nat (ws.map Window.id) 1
                (by rw [List.length_map]; omega)
              have hids' : (listSwap (ws.set m w.apply_transaction) 1 m).map Window.id =
                  listSwap (ws.map Window.id) 1 m := by
                rw [listSwap_map, hws1id]
              have hlen'' : m + 1 ≤ (listSwap (ws.set m w.apply_transaction) 1 m).length := by
                rw [listSwap_length, hws1len]
                omega
              have hsP : secondaryPending txS (ws.map Window.id) = 1 :=
                secondaryPending_eq_one hidm hsb.2 (by omega)
              have hsP' : secondaryPending txS (listSwap (ws.map Window.id) 1 m) = 0 :=
                secondaryPending_swap_zero hd hidm hsb.2 hy (by omega)
              have hpP' : primaryPending txP (listSwap (ws.map Window.id) 1 m) ≤
                  primaryPending txP (ws.map Window.id) :=
                primaryPending_swap_le hy hidm (by omega) (by omega)
              have hfuel'' : m + 1 +
                  primaryPending txP ((listSwap (ws.set m w.apply_transaction) 1 m).map Window.id) +
                  secondaryPending txS ((listSwap (ws.set m w.apply_transaction) 1 m).map Window.id) ≤
                  f := by
                rw [hids']
                omega
              have hd'' : distinctAt ((listSwap (ws.set m w.apply_transaction) 1 m).map Window.id) := by
                rw [hids']
                exact distinctAt_swap hy hidm hd
              have hinv'' : commitInv txP txS (m + 1)
                  (listSwap (ws.set m w.apply_transaction) 1 m) := by
                intro j hj w' hw'
                rw [listSwap_get? _ hw1 hws1m, if_neg (by omega : ¬ j = m),
                  if_neg (by omega : ¬ j = 1), hws1get j (by omega)] at hw'
                exact hinv j (by omega) w' hw'
              obtain ⟨hinvR, hpresR⟩ := IH (m + 1) _ hlen'' hfuel'' hd'' hinv''
              exact ⟨hinvR, fun p hp =>
                hpresR p (hasLiveId_swap hw1 hws1m p (hasLiveId_set_apply hw p hp))⟩
            · -- no swap: the window settles at index m
              have heq : commitLoopAux txP txS 1 (f + 1) (m + 1) ws =
                  commitLoopAux txP txS 1 f m (ws.set m w.apply_transaction) := by
                simp only [commitLoopAux, hw]
                rw [if_neg (fun hc => hc halive), if_neg hpb, if_neg hsb]
              rw [heq]
              have hlen'' : m ≤ (ws.set m w.apply_transaction).length := by
                rw [hws1len]
                omega
              have hfuel'' : m +
                  primaryPending txP ((ws.set m w.apply_transaction).map Window.id) +
                  secondaryPending txS ((ws.set m w.apply_transaction).map Window.id) ≤ f := by
                rw [hws1id]
                omega
              have hd'' : distinctAt ((ws.set m w.apply_transaction).map Window.id) := by
                rw [hws1id]
                exact hd
              have hinv'' : commitInv txP txS m (ws.set m w.apply_transaction) := by
                intro j hj w' hw'
                by_cases hjm : j = m
                · subst hjm
                  rw [hws1m] at hw'
                  have hww : w' = w.apply_transaction := (Option.some.inj hw').symm
                  subst hww
                  refine ⟨?_, apply_transaction_none w, ?_, ?_⟩
                  · rw [apply_transaction_alive]
                    exact halive
                  · intro hP
                    rw [apply_transaction_id] at hP
                    by_contra hj0
                    exact hpb ⟨by omega, hP⟩
                  · intro hS
                    rw [apply_transaction_id] at hS
                    by_contra hj1
                    exact hsb ⟨by omega, hS⟩
                · rw [hws1get j hjm] at hw'
                  exact hinv j (by omega) w' hw'
              obtain ⟨hinvR, hpresR⟩ := IH m _ hlen'' hfuel'' hd'' hinv''
              exact ⟨hinvR, fun p hp => hpresR p (hasLiveId_set_apply hw p hp)⟩
        · -- dead window: removed from the list
          have heq : commitLoopAux txP txS 1 (f + 1) (m + 1) ws =
              commitLoopAux txP txS 1 f m (ws.eraseIdx m) := by
            simp only [commitLoopAux, hw]
            rw [if_pos halive]
          rw [heq]
          have hmap : (ws.eraseIdx m).map Window.id = (ws.map Window.id).eraseIdx m :=
            map_eraseIdx' Window.id ws m
          have hlen' : m ≤ (ws.eraseIdx m).length := by
            rw [List.length_eraseIdx]
            split <;> omega
          have hfuel' : m + primaryPending txP ((ws.eraseIdx m).map Window.id) +
              secondaryPending txS ((ws.eraseIdx m).map Window.id) ≤ f := by
            rw [hmap]
            have h1 := primaryPending_erase txP (ws.map Window.id) m
            have h2 := secondaryPending_erase txS (ws.map Window.id) m
            omega
          have hd' : distinctAt ((ws.eraseIdx m).map Window.id) := by
            rw [hmap]
            exact distinctAt_erase m hd
          have hinv' : commitInv txP txS m (ws.eraseIdx m) := by
            intro j hj w' hw'
            rw [List.get?_eq_getElem?, List.getElem?_eraseIdx,
              if_neg (by omega : ¬ j < m), ← List.get?_eq_getElem?] at hw'
            have hres := hinv (j + 1) (by omega) w' hw'
            exact ⟨hres.1, hres.2.1,
              fun hP => absurd (hres.2.2.1 hP) (by omega),
              fun hS => by have := hres.2.2.2 hS; omega⟩
          obtain ⟨hinvR, hpresR⟩ := IH m _ hlen' hfuel' hd' hinv'
          exact ⟨hinvR, fun p hp => hpresR p (hasLiveId_erase_dead hw halive p hp)⟩

theorem commitLoop_inv (txP txS : Option Nat) (ws : List Window)
    (hd : distinctAt (ws.map Window.id)) :
    commitInv txP txS 0 (commitLoop txP txS 1 ws) ∧
      ∀ p, hasLiveId p ws → hasLiveId p (commitLoop txP txS 1 ws) := by
  unfold commitLoop
  refine commitLoopAux_inv txP txS (ws.length + 3) ws.length ws (le_refl _) ?_ hd ?_
  · have h1 := primaryPending_le txP (ws.map Window.id)
    have h2 := secondaryPending_le txS (ws.map Window.id)
    omega
  · intro j hj w' hw'
    rw [List.get?_eq_getElem?] at hw'
    have := (List.getElem?_eq_some.1 hw').1
    omega

/-- **C2** (amended): when `update_transaction` commits an active
transaction (all participants ready or the 200 ms deadline passed) and the
listed window ids are distinct, the resulting window list holds only live
windows whose per-window transactions have been applied (dead windows are
purged); the staged primary, if still alive, ends at index 0; the staged
secondary, if still alive, ends at index 0 or 1 — it is guaranteed to end
at index 1 only when a distinct staged primary is also still alive; and
the registry's view, primary and secondary fields take the staged values
(the view unchanged when none was staged). The original claim's
"secondary at index 1" is refuted by
the counterexample: with no live staged primary the loop never moves a
secondary already sitting at index 0. -/
theorem update_transaction_commit_layout
    (s : Windows) (t : Transaction) (now : ℚ)
    (ht : s.transaction = some t)
    (hnd : (s.windows.map Window.id).Nodup)
    (hcommit : ¬ (now - t.start ≤ MAX_TRANSACTION_DURATION ∧ ¬ s.txFinished)) :
    (∀ j w, (s.update_transaction now).windows.get? j = some w →
      w.alive = true ∧ w.transaction = none) ∧
    (∀ p, t.primary = some p → hasLiveId p s.windows →
      ∃ w, (s.update_transaction now).windows.get? 0 = some w ∧ w.id = p) ∧
    (∀ q, t.secondary = some q → hasLiveId q s.windows →
      ∃ j w, j ≤ 1 ∧ (s.update_transaction now).windows.get? j = some w ∧ w.id = q) ∧
    (∀ p q, t.primary = some p → t.secondary = some q → p ≠ q →
      hasLiveId p s.windows → hasLiveId q s.windows →
      ∃ w, (s.update_transaction now).windows.get? 1 = some w ∧ w.id = q) ∧
    (s.update_transaction now).view = t.view.getD s.view ∧
    (s.update_transaction now).primary = t.primary ∧
    (s.update_transaction now).secondary = t.secondary := by
  have hsc : max (s.strongCount s.primary) 1 = 1 :=
    max_eq_right (strongCount_le_one hnd s.primary)
  have hS : s.update_transaction now =
      { s with
          windows := commitLoop t.primary t.secondary 1 s.windows
          transaction := none
          view := t.view.getD s.view
          secondary := t.secondary
          primary := t.primary } := by
    unfold Windows.update_transaction
    simp only [ht]
    rw [if_neg hcommit, hsc]
  have hd : distinctAt (s.windows.map Window.id) := nodup_distinctAt _ hnd
  obtain ⟨hinv, hpres⟩ := commitLoop_inv t.primary t.secondary s.windows hd
  have hprimAt : ∀ p, t.primary = some p → hasLiveId p s.windows →
      ∃ w, (commitLoop t.primary t.secondary 1 s.windows).get? 0 = some w ∧ w.id = p := by
    intro p hp hlive
    obtain ⟨j, w, hj, hid, hal⟩ := hpres p hlive
    have hcl := hinv j (Nat.zero_le j) w hj
    have hj0 : j = 0 := hcl.2.2.1 (by rw [hid]; exact hp)
    subst hj0
    exact ⟨w, hj, hid⟩
  have hsecAt : ∀ q, t.secondary = some q → hasLiveId q s.windows →
      ∃ j w, j ≤ 1 ∧ (commitLoop t.primary t.secondary 1 s.windows).get? j = some w ∧
        w.id = q := by
    intro q hq hlive
    obtain ⟨j, w, hj, hid, hal⟩ := hpres q hlive
    have hcl := hinv j (Nat.zero_le j) w hj
    exact ⟨j, w, hcl.2.2.2 (by rw [hid]; exact hq), hj, hid⟩
  refine ⟨?_, ?_, ?_, ?_, ?_, ?_, ?_⟩
  · intro j w hw
    rw [hS] at hw
    have hcl := hinv j (Nat.zero_le j) w hw
    exact ⟨hcl.1, hcl.2.1⟩
  · intro p hp hlive
    rw [hS]
    exact hprimAt p hp hlive
  · intro q hq hlive
    rw [hS]
    exact hsecAt q hq hlive
  · intro p q hp hq hpq hlivep hliveq
    rw [hS]
    obtain ⟨wp, hwp, hwpid⟩ := hprimAt p hp hlivep
    obtain ⟨j, wq, hj1, hwq, hwqid⟩ := hsecAt q hq hliveq
    have hj : j = 1 := by
      by_contra hne
      have hj0 : j = 0 := by omega
      subst hj0
      rw [hwp] at hwq
      have : wp = wq := Option.some.inj hwq
      exact hpq (by rw [← hwpid, this, hwqid])
    subst hj
    exact ⟨wq, hwq, hwqid⟩
  · rw [hS]
  · rw [hS]
  · rw [hS]

/-- **C2** (counterexample): committing `stateC2`'s transaction — which
stages window `S` (id 0, alive, at index 0) as secondary and stages no
primary — leaves `S` at index 0 of the resulting window list, not at
index 1 as the claim demands: `secondary_index = strong_count().max(1) = 1`
and the loop only swaps a secondary found at an index *greater* than 1. -/
theorem update_transaction_secondary_counterexample :
    (stateC2.update_transaction 300).transaction = none ∧
    (stateC2.update_transaction 300).secondary = some 0 ∧
    (stateC2.update_transaction 300).windows = [winS, winX] ∧
    winS.id = 0 ∧ winS.alive = true := by
  have ht : stateC2.transaction = some ⟨none, some 0, some View.workspace, 0⟩ := rfl
  have hS : stateC2.update_transaction 300 =
      { windows := [winS, winX], primary := none, secondary := some 0,
        transaction := none, view := View.workspace, closeRequests := [] } := by
    unfold Windows.update_transaction
    simp only [ht]
    rw [if_neg]
    · rfl
    · exact fun h => h.2 rfl
  refine ⟨?_, ?_, ?_, rfl, rfl⟩ <;> rw [hS]

/-- Witness for `update_transaction_commit_layout`: committing `stateC2w`'s
transaction (staged primary `P`, staged secondary `S`, list `[X, P, S]`)
puts `S` at index 1. -/
theorem update_transaction_commit_layout_witness :
    ∃ w, (stateC2w.update_transaction 300).windows.get? 1 = some w ∧ w.id = 0 := by
  have h := update_transaction_commit_layout stateC2w ⟨some 2, some 0, none, 0⟩ 300
    rfl (by decide) (fun hc => hc.2 rfl)
  exact h.2.2.2.1 2 0 rfl rfl (by decide) ⟨1, winP, rfl, rfl, rfl⟩ ⟨2, winS, rfl, rfl, rfl⟩
